import Mathlib

/-!
Shallow embedding of the Trivia.NET server (`server.py`, with the helper
modules `questions.py` and `client.py`) and proofs about its answer
evaluator, ranking, round sealing, disconnect handling and wire decoding.

Strings are modelled as `List Char` (Python `str` is a sequence of code
points, which matches `Char` here); Python `int` is `Int`, with `Nat` used
where the source can only produce non-negative values.
-/

namespace TriviaNet

/-! ### Basic Python string primitives used by the server -/

/-- The whitespace characters recognised by Python's `str.strip()` /
`\s` on the ASCII range (the payloads in this system are ASCII). -/
def pyIsSpace (c : Char) : Bool :=
  c = ' ' ∨ c = '\t' ∨ c = '\n' ∨ c = '\x0b' ∨ c = '\x0c' ∨ c = '\r'

/-- Python `s.strip()`: drop whitespace from both ends. -/
def pyStrip (s : List Char) : List Char :=
  (((s.dropWhile pyIsSpace).reverse).dropWhile pyIsSpace).reverse

/-- The character for a single decimal digit (the last branch is only
reached for `n = 9` at every call site, since callers pass `n < 10`). -/
def digitChar : Nat → Char
  | 0 => '0'
  | 1 => '1'
  | 2 => '2'
  | 3 => '3'
  | 4 => '4'
  | 5 => '5'
  | 6 => '6'
  | 7 => '7'
  | 8 => '8'
  | _ => '9'

/-- Decimal digits of `n`, most significant first; the fuel argument makes
the recursion structural (`fuel = n + 1` always suffices since `n / 10 < n`
for `n ≥ 10`). Models Python `str` on a non-negative `int`. -/
def natDigitsAux : Nat → Nat → List Char
  | 0, _ => []
  | fuel + 1, n =>
    if n < 10 then [digitChar n]
    else natDigitsAux fuel (n / 10) ++ [digitChar (n % 10)]

/-- Python `str(n)` for a non-negative integer `n`. -/
def natStr (n : Nat) : List Char := natDigitsAux (n + 1) n

/-- Base-10 left fold with starting accumulator `m`; `accVal 0 ds` is
Python `int(ds)` on an all-digit string `ds`, and the fold step is exactly
the accumulator update of the tokenizer below. -/
def accVal (m : Nat) (ds : List Char) : Nat :=
  ds.foldl (fun acc c => 10 * acc + (c.toNat - 48)) m

/-- Python `int(s)` on a non-empty all-digit string (the only shape the
server ever feeds to `int` in the claims' domain): the usual base-10 value. -/
def digitsToNat (s : List Char) : Nat := accVal 0 s

/-! ### `server.py::solve_math` (lines 102-126)

```python
def solve_math(expr: str) -> str:
    expr = expr.replace("−", "-").replace("–", "-")
    tokens = re.findall(r"[0-9]+|[+\-*/]", expr)
    if not tokens:
        return ""
    vals = [int(t) if t.isdigit() else t for t in tokens]
    i = 0
    while i < len(vals):
        if vals[i] == "*" and 0 < i < len(vals) - 1:
            vals[i - 1:i + 2] = [vals[i - 1] * vals[i + 1]]
            i -= 1
        elif vals[i] == "/" and 0 < i < len(vals) - 1:
            vals[i - 1:i + 2] = [vals[i - 1] // vals[i + 1] if vals[i + 1] else 0]
            i -= 1
        else:
            i += 1
    res = vals[0]
    i = 1
    while i < len(vals):
        op, rhs = vals[i], vals[i + 1]
        if op == "+": res += rhs
        elif op == "-": res -= rhs
        i += 2
    return str(res).replace("-", "−")
```
-/

/-- A token of the evaluator: an integer literal or an operator symbol
(Python keeps these as `int` / one-character `str` in one list). -/
inductive Tok where
  | num (n : Int)
  | sym (c : Char)
deriving DecidableEq

/-- `expr.replace("−", "-").replace("–", "-")`: both the Unicode minus
sign U+2212 and the en dash U+2013 become an ASCII hyphen. -/
def dashNormalize (c : Char) : Char :=
  if c = '−' ∨ c = '–' then '-' else c

/-- `re.findall(r"[0-9]+|[+\-*/]", expr)` followed by the
`int(t) if t.isdigit() else t` mapping: scan left to right, turning each
maximal digit run into a `Tok.num` and each operator character into a
`Tok.sym`; every other character is skipped.  The accumulator holds the
value of the digit run currently being read. -/
def findTokens : List Char → Option Nat → List Tok
  | [], none => []
  | [], some n => [Tok.num n]
  | c :: cs, acc =>
    if c.isDigit then
      findTokens cs (some (10 * acc.getD 0 + (c.toNat - 48)))
    else
      (match acc with | some n => [Tok.num n] | none => []) ++
      (if c = '+' ∨ c = '-' ∨ c = '*' ∨ c = '/' then [Tok.sym c] else []) ++
      findTokens cs none

/-- Python `a // b if b else 0`: floor division, with division by zero
giving `0` (Python `//` floors, which is `Int.fdiv`, not truncation). -/
def pyDivZ (a b : Int) : Int := if b = 0 then 0 else Int.fdiv a b

/-- `vals[i-1:i+2] = [v]`: replace the three elements at `i-1, i, i+1`
by the single element `v`. -/
def spliceAt (vals : List Tok) (i : Nat) (v : Tok) : List Tok :=
  vals.take (i - 1) ++ v :: vals.drop (i + 2)

/-- First pass of `solve_math`: the `while` loop that collapses `*` and
`/` in place.  `none` models the branches where Python's dynamically
typed splice would hit a non-integer neighbour (a `TypeError`, or a
string-repetition value that a later step turns into a `TypeError`);
those branches are unreachable on the alternating number/operator lists
every theorem below quantifies over, and the caller (`main`) catches any
such exception.  The first argument is fuel making the recursion
structural; each iteration strictly decreases `2 * vals.length - i`, so
fuel `2 * vals.length + 1` always runs the loop to completion. -/
def mulDivLoop : Nat → List Tok → Nat → Option (List Tok)
  | 0, _, _ => none
  | fuel + 1, vals, i =>
    if i < vals.length then
      match vals[i]? with
      | some (Tok.sym c) =>
        if (c = '*' ∨ c = '/') ∧ 0 < i ∧ i < vals.length - 1 then
          match vals[i - 1]?, vals[i + 1]? with
          | some (Tok.num a), some (Tok.num b) =>
            mulDivLoop fuel (spliceAt vals i (Tok.num (if c = '*' then a * b else pyDivZ a b))) (i - 1)
          | _, _ => none
        else mulDivLoop fuel vals (i + 1)
      | _ => mulDivLoop fuel vals (i + 1)
    else some vals

/-- Second pass of `solve_math`: `res = vals[0]` then the stride-2 loop
applying `+` and `-`.  The list argument is `vals[1:]`.  `none` models
an `IndexError` (odd tail) or a `TypeError` (adding an operator string),
again unreachable on alternating lists. -/
def sumLoop (res : Int) : List Tok → Option Int
  | [] => some res
  | [_] => none
  | t :: b :: rest =>
    match b with
    | Tok.num rb =>
      sumLoop (if t = Tok.sym '+' then res + rb
               else if t = Tok.sym '-' then res - rb else res) rest
    | Tok.sym _ =>
      if t = Tok.sym '+' ∨ t = Tok.sym '-' then none else sumLoop res rest

/-- `str(res).replace("-", "−")`: decimal rendering with the Unicode
minus sign for negatives. -/
def pyIntStr (i : Int) : List Char :=
  if i < 0 then '−' :: natStr i.natAbs else natStr i.toNat

/-- `server.py::solve_math` on the character list of the payload.
`none` models an escaped exception (caught by `main`'s handler); Python's
stringly-typed behaviour when the token list starts with an operator is
likewise folded into `none` (it computes with a `str` accumulator there,
outside every theorem's domain). -/
def solveMathChars (expr : List Char) : Option (List Char) :=
  let toks := findTokens (expr.map dashNormalize) none
  if toks = [] then some [] else
  match mulDivLoop (2 * toks.length + 1) toks 0 with
  | none => none
  | some vals =>
    match vals with
    | Tok.num r :: rest => (sumLoop r rest).map pyIntStr
    | _ => none

/-- `server.py::solve_math` at `String` type. -/
def solve_math (expr : String) : Option String :=
  (solveMathChars expr.toList).map List.asString

/-! ### Arithmetic payloads and the two readings of the evaluator -/

/-- The payload string `a₀ op₁ a₁ op₂ a₂ …` with single spaces — the shape
produced by `questions.generate_mathematics_question` (a `" ".join` of
operands and operators) and quoted by the spec, e.g. `"6 / 0"`. -/
def renderExpr (a : Nat) (l : List (Char × Nat)) : List Char :=
  natStr a ++ l.flatMap (fun p => ' ' :: p.1 :: ' ' :: natStr p.2)

/-- Operand list with the values cast to `Int`, as the tokenizer's
`int(t)` mapping produces. -/
def intify (l : List (Char × Nat)) : List (Char × Int) :=
  l.map (fun p => (p.1, (p.2 : Int)))

/-- The token list of the payload `a₀ op₁ a₁ …`. -/
def toToksZ (a : Int) (l : List (Char × Int)) : List Tok :=
  Tok.num a :: l.flatMap (fun p => [Tok.sym p.1, Tok.num p.2])

/-- Functional reading of `solve_math`'s first pass: every `*` and `/` is
collapsed into its left neighbour, left to right; all other operators are
left in place. -/
def collapseMulDiv (a : Int) : List (Char × Int) → Int × List (Char × Int)
  | [] => (a, [])
  | (c, b) :: rest =>
    if c = '*' then collapseMulDiv (a * b) rest
    else if c = '/' then collapseMulDiv (pyDivZ a b) rest
    else
      let r := collapseMulDiv b rest
      (a, (c, r.1) :: r.2)

/-- Functional reading of `solve_math`'s second pass: fold `+` and `-`
left to right; any other operator leaves the total unchanged (as in the
Python loop's if/elif with no else). -/
def sumFold (r : Int) (l : List (Char × Int)) : Int :=
  l.foldl
    (fun acc p => if p.1 = '+' then acc + p.2 else if p.1 = '-' then acc - p.2 else acc) r

/-- Functional reading of the whole evaluator: `*` and `/` first
(zero-tolerant floor division), then `+` and `-`. -/
def precEval (a : Nat) (l : List (Char × Nat)) : Int :=
  sumFold (collapseMulDiv a (intify l)).1 (collapseMulDiv a (intify l)).2

/-- Modelled from the spec: the strict left-to-right fold the spec ascribes
to the evaluator — start from `a₀` and apply each operator in sequence to
the running total and the next operand, with no operator precedence, `/`
being integer floor division and division by zero yielding `0`. -/
def specLeftFold (a : Nat) (l : List (Char × Nat)) : Int :=
  l.foldl
    (fun acc p =>
      if p.1 = '+' then acc + p.2
      else if p.1 = '-' then acc - p.2
      else if p.1 = '*' then acc * p.2
      else pyDivZ acc p.2) (a : Int)

/-! ### Digit-rendering lemmas -/

lemma digitChar_isDigit {n : Nat} (h : n < 10) : (digitChar n).isDigit := by
  interval_cases n <;> decide

lemma digitChar_toNat {n : Nat} (h : n < 10) : (digitChar n).toNat = 48 + n := by
  interval_cases n <;> decide

lemma dashNormalize_of_isDigit {c : Char} (h : c.isDigit) : dashNormalize c = c := by
  have h1 : c ≠ '−' := by rintro rfl; exact absurd h (by decide)
  have h2 : c ≠ '–' := by rintro rfl; exact absurd h (by decide)
  simp [dashNormalize, h1, h2]

lemma natDigitsAux_digits :
    ∀ fuel n, n < fuel → ∀ c ∈ natDigitsAux fuel n, c.isDigit := by
  intro fuel
  induction fuel with
  | zero => intro n h; omega
  | succ f ih =>
    intro n h c hc
    by_cases h10 : n < 10
    · simp [natDigitsAux, h10] at hc
      subst hc
      exact digitChar_isDigit h10
    · simp [natDigitsAux, h10] at hc
      rcases hc with hc | hc
      · exact ih (n / 10) (by omega) c hc
      · subst hc
        exact digitChar_isDigit (by omega)

lemma accVal_append (m : Nat) (xs ys : List Char) :
    accVal m (xs ++ ys) = accVal (accVal m xs) ys :=
  List.foldl_append ..

lemma natDigitsAux_val :
    ∀ fuel n m, n < fuel →
      accVal m (natDigitsAux fuel n) = m * 10 ^ (natDigitsAux fuel n).length + n := by
  intro fuel
  induction fuel with
  | zero => intro n m h; omega
  | succ f ih =>
    intro n m h
    by_cases h10 : n < 10
    · simp [natDigitsAux, h10, accVal, digitChar_toNat h10]
      omega
    · have hrec : n / 10 < f := by omega
      simp only [natDigitsAux, if_neg h10, accVal_append, List.length_append,
        List.length_singleton]
      rw [ih (n / 10) m hrec]
      simp only [accVal, List.foldl_cons, List.foldl_nil,
        digitChar_toNat (show n % 10 < 10 by omega)]
      have hp : 10 ^ ((natDigitsAux f (n / 10)).length + 1)
          = 10 ^ (natDigitsAux f (n / 10)).length * 10 := pow_succ 10 _
      have hdm : 10 * (n / 10) + n % 10 = n := by omega
      calc 10 * (m * 10 ^ (natDigitsAux f (n / 10)).length + n / 10) + (48 + n % 10 - 48)
      _ = m * (10 ^ (natDigitsAux f (n / 10)).length * 10) + (10 * (n / 10) + n % 10) := by
        ring_nf
        omega
      _ = m * 10 ^ ((natDigitsAux f (n / 10)).length + 1) + n := by rw [hp, hdm]

lemma natStr_digits {n : Nat} : ∀ c ∈ natStr n, c.isDigit :=
  natDigitsAux_digits (n + 1) n (Nat.lt_succ_self n)

lemma digitsToNat_natStr (n : Nat) : digitsToNat (natStr n) = n := by
  have := natDigitsAux_val (n + 1) n 0 (Nat.lt_succ_self n)
  simpa [digitsToNat, natStr] using this

lemma natStr_ne_nil (n : Nat) : natStr n ≠ [] := by
  unfold natStr natDigitsAux
  by_cases h10 : n < 10 <;> simp [h10]

/-! ### Tokenizer lemmas -/

lemma findTokens_digits_some :
    ∀ (ds : List Char) (m : Nat) (rest : List Char), (∀ c ∈ ds, c.isDigit) →
      findTokens (ds ++ rest) (some m) = findTokens rest (some (accVal m ds)) := by
  intro ds
  induction ds with
  | nil => intro m rest _; simp [accVal]
  | cons d tl ih =>
    intro m rest h
    have hd : d.isDigit := h d (List.mem_cons_self d tl)
    simp only [List.cons_append, findTokens, hd, if_pos, Option.getD_some, List.append_eq]
    rw [ih (10 * m + (d.toNat - 48)) rest (fun c hc => h c (List.mem_cons_of_mem d hc))]
    rfl

lemma findTokens_digits_none {ds : List Char} (hne : ds ≠ []) (hdig : ∀ c ∈ ds, c.isDigit)
    (rest : List Char) :
    findTokens (ds ++ rest) none = findTokens rest (some (accVal 0 ds)) := by
  match ds, hne with
  | d :: tl, _ =>
    have hd : d.isDigit := hdig d (List.mem_cons_self d tl)
    simp only [List.cons_append, findTokens, hd, if_pos, Option.getD_none, List.append_eq]
    rw [findTokens_digits_some tl (10 * 0 + (d.toNat - 48)) rest
      (fun c hc => hdig c (List.mem_cons_of_mem d hc))]
    rfl

/-- The operator characters of the payload grammar. -/
def opChar (c : Char) : Prop := c = '+' ∨ c = '-' ∨ c = '*' ∨ c = '/'

instance (c : Char) : Decidable (opChar c) := by unfold opChar; infer_instance

lemma opChar_not_digit {c : Char} (h : opChar c) : c.isDigit = false := by
  rcases h with rfl | rfl | rfl | rfl <;> decide

lemma dashNormalize_opChar {c : Char} (h : opChar c) : dashNormalize c = c := by
  rcases h with rfl | rfl | rfl | rfl <;> decide

lemma findTokens_flat :
    ∀ (l : List (Char × Nat)) (m : Nat), (∀ p ∈ l, opChar p.1) →
      findTokens (l.flatMap (fun p => ' ' :: p.1 :: ' ' :: natStr p.2)) (some m)
        = Tok.num (m : Int) :: (intify l).flatMap (fun p => [Tok.sym p.1, Tok.num p.2]) := by
  intro l
  induction l with
  | nil => intro m _; simp [findTokens, intify]
  | cons hd tl ih =>
    intro m h
    obtain ⟨c, b⟩ := hd
    have hop : opChar c := h (c, b) (List.mem_cons_self _ tl)
    have hsp : (' ' : Char).isDigit = false := by decide
    have hspop : ¬ (' ' = '+' ∨ ' ' = '-' ∨ ' ' = '*' ∨ ' ' = '/') := by decide
    simp only [List.flatMap_cons, List.cons_append, List.append_assoc]
    rw [show (' ' :: c :: ' ' :: (natStr b ++ tl.flatMap (fun p => ' ' :: p.1 :: ' ' :: natStr p.2)))
        = ' ' :: c :: ' ' :: natStr b ++ tl.flatMap (fun p => ' ' :: p.1 :: ' ' :: natStr p.2) from by simp]
    simp only [findTokens, hsp, Bool.false_eq_true, if_neg, if_false, hspop,
      opChar_not_digit hop, List.append_eq]
    have hop' : c = '+' ∨ c = '-' ∨ c = '*' ∨ c = '/' := hop
    rw [if_pos hop']
    rw [findTokens_digits_none (natStr_ne_nil b) (fun c hc => natStr_digits c hc) _]
    have hb : accVal 0 (natStr b) = b := digitsToNat_natStr b
    rw [hb, ih b (fun p hp => h p (List.mem_cons_of_mem _ hp))]
    simp [intify]

lemma dashNormalize_renderExpr {a : Nat} {l : List (Char × Nat)}
    (h : ∀ p ∈ l, opChar p.1) :
    (renderExpr a l).map dashNormalize = renderExpr a l := by
  have key : ∀ c ∈ renderExpr a l, dashNormalize c = c := by
    intro c hc
    simp only [renderExpr, List.mem_append, List.mem_flatMap] at hc
    rcases hc with hc | ⟨p, hp, hc⟩
    · exact dashNormalize_of_isDigit (natStr_digits c hc)
    · simp only [List.mem_cons] at hc
      rcases hc with rfl | rfl | rfl | hc
      · decide
      · exact dashNormalize_opChar (h p hp)
      · decide
      · exact dashNormalize_of_isDigit (natStr_digits c hc)
  calc (renderExpr a l).map dashNormalize
  _ = (renderExpr a l).map id := List.map_congr_left key
  _ = renderExpr a l := List.map_id _

lemma renderExpr_tokens {a : Nat} {l : List (Char × Nat)} (h : ∀ p ∈ l, opChar p.1) :
    findTokens (renderExpr a l) none = toToksZ (a : Int) (intify l) := by
  unfold renderExpr
  rw [findTokens_digits_none (natStr_ne_nil a) (fun c hc => natStr_digits c hc) _]
  have ha : accVal 0 (natStr a) = a := digitsToNat_natStr a
  rw [ha, findTokens_flat l a h]
  rfl

/-! ### The star-slash pass, functionally -/

lemma flat_pairs_length (l : List (Char × Int)) :
    (l.flatMap (fun p => [Tok.sym p.1, Tok.num p.2])).length = 2 * l.length := by
  induction l with
  | nil => simp
  | cons hd tl ih => simp [ih]; omega

lemma mulDivLoop_step_exit {vals : List Tok} {i : Nat} (f : Nat)
    (h : ¬ i < vals.length) :
    mulDivLoop (f + 1) vals i = some vals := by
  simp [mulDivLoop, h]

lemma mulDivLoop_step_num {vals : List Tok} {i : Nat} {x : Int} (f : Nat)
    (hi : i < vals.length) (hv : vals[i]? = some (Tok.num x)) :
    mulDivLoop (f + 1) vals i = mulDivLoop f vals (i + 1) := by
  simp [mulDivLoop, hi, hv]

lemma mulDivLoop_step_skip {vals : List Tok} {i : Nat} {c : Char} (f : Nat)
    (hi : i < vals.length) (hv : vals[i]? = some (Tok.sym c))
    (hng : ¬ ((c = '*' ∨ c = '/') ∧ 0 < i ∧ i < vals.length - 1)) :
    mulDivLoop (f + 1) vals i = mulDivLoop f vals (i + 1) := by
  simp only [mulDivLoop, hv, if_pos hi]
  rw [if_neg hng]

lemma mulDivLoop_step_splice {vals : List Tok} {i : Nat} {c : Char} {a b : Int} (f : Nat)
    (hi : i < vals.length) (hv : vals[i]? = some (Tok.sym c))
    (hc : c = '*' ∨ c = '/') (h0 : 0 < i) (hlt : i < vals.length - 1)
    (ha : vals[i - 1]? = some (Tok.num a)) (hb : vals[i + 1]? = some (Tok.num b)) :
    mulDivLoop (f + 1) vals i
      = mulDivLoop f (spliceAt vals i (Tok.num (if c = '*' then a * b else pyDivZ a b)))
          (i - 1) := by
  have hcond : (c = '*' ∨ c = '/') ∧ 0 < i ∧ i < vals.length - 1 := ⟨hc, h0, hlt⟩
  simp only [mulDivLoop, hv, if_pos hi, if_pos hcond, ha, hb]

lemma mulDivLoop_collapse :
    ∀ (l : List (Char × Int)) (done : List Tok) (a : Int) (fuel : Nat),
      2 * l.length + 2 ≤ fuel →
      mulDivLoop fuel (done ++ toToksZ a l) done.length
        = some (done ++ toToksZ (collapseMulDiv a l).1 (collapseMulDiv a l).2) := by
  intro l
  induction l with
  | nil =>
    intro done a fuel hf
    obtain ⟨f, rfl⟩ : ∃ f, fuel = f + 2 := ⟨fuel - 2, by omega⟩
    have hlen : (done ++ toToksZ a []).length = done.length + 1 := by
      simp [toToksZ]
    have hv : (done ++ toToksZ a [])[done.length]? = some (Tok.num a) := by
      rw [List.getElem?_append_right (Nat.le_refl _), Nat.sub_self]
      rfl
    rw [mulDivLoop_step_num (f + 1) (by omega) hv,
      mulDivLoop_step_exit f (by omega)]
    simp [collapseMulDiv]
  | cons hd tl ih =>
    intro done a fuel hf
    obtain ⟨c, b⟩ := hd
    simp only [List.length_cons] at hf
    obtain ⟨f, rfl⟩ : ∃ f, fuel = f + 2 := ⟨fuel - 2, by omega⟩
    have hexp : toToksZ a ((c, b) :: tl)
        = Tok.num a :: Tok.sym c :: Tok.num b
            :: tl.flatMap (fun p => [Tok.sym p.1, Tok.num p.2]) := by
      simp [toToksZ]
    have hlen : (done ++ toToksZ a ((c, b) :: tl)).length
        = done.length + 3 + 2 * tl.length := by
      rw [hexp]
      simp only [List.length_append, List.length_cons, flat_pairs_length]
      omega
    have hva : (done ++ toToksZ a ((c, b) :: tl))[done.length]? = some (Tok.num a) := by
      rw [List.getElem?_append_right (Nat.le_refl _), Nat.sub_self, hexp]
      rfl
    have hvc : (done ++ toToksZ a ((c, b) :: tl))[done.length + 1]? = some (Tok.sym c) := by
      rw [List.getElem?_append_right (by omega), Nat.add_sub_cancel_left, hexp]
      rfl
    have hvb : (done ++ toToksZ a ((c, b) :: tl))[done.length + 2]? = some (Tok.num b) := by
      rw [List.getElem?_append_right (by omega), Nat.add_sub_cancel_left, hexp]
      simp
    rw [mulDivLoop_step_num (f + 1) (by omega) hva]
    by_cases hcs : c = '*' ∨ c = '/'
    · have hsplice :
          spliceAt (done ++ toToksZ a ((c, b) :: tl)) (done.length + 1)
            (Tok.num (if c = '*' then a * b else pyDivZ a b))
          = done ++ toToksZ (if c = '*' then a * b else pyDivZ a b) tl := by
        unfold spliceAt
        rw [Nat.add_sub_cancel, List.take_left]
        rw [show done.length + 1 + 2 = done.length + 3 from by omega,
          List.drop_append 3, hexp]
        simp [toToksZ]
      rw [mulDivLoop_step_splice f (by omega) hvc hcs (by omega) (by omega)
        (by simpa using hva) hvb]
      rw [Nat.add_sub_cancel, hsplice,
        ih done (if c = '*' then a * b else pyDivZ a b) f (by omega)]
      rcases hcs with rfl | rfl
      · simp [collapseMulDiv]
      · simp [collapseMulDiv]
    · have hng : ¬ ((c = '*' ∨ c = '/') ∧ 0 < done.length + 1
          ∧ done.length + 1 < (done ++ toToksZ a ((c, b) :: tl)).length - 1) :=
        fun hcon => hcs hcon.1
      rw [mulDivLoop_step_skip f (by omega) hvc hng]
      have hassoc : done ++ toToksZ a ((c, b) :: tl)
          = (done ++ [Tok.num a, Tok.sym c]) ++ toToksZ b tl := by
        rw [hexp]
        simp [toToksZ]
      have hlen2 : done.length + 1 + 1 = (done ++ [Tok.num a, Tok.sym c]).length := by
        simp
      rw [hassoc, hlen2, ih (done ++ [Tok.num a, Tok.sym c]) b f (by omega)]
      have hc1 : c ≠ '*' := fun hh => hcs (Or.inl hh)
      have hc2 : c ≠ '/' := fun hh => hcs (Or.inr hh)
      simp [collapseMulDiv, hc1, hc2, toToksZ]

/-! ### The plus-minus pass, functionally -/

lemma sumLoop_pairs :
    ∀ (l : List (Char × Int)) (r : Int),
      sumLoop r (l.flatMap (fun p => [Tok.sym p.1, Tok.num p.2])) = some (sumFold r l) := by
  intro l
  induction l with
  | nil => intro r; simp [sumLoop, sumFold]
  | cons hd tl ih =>
    intro r
    obtain ⟨c, b⟩ := hd
    simp only [List.flatMap_cons, List.cons_append, List.nil_append]
    rw [show (Tok.sym c :: Tok.num b :: tl.flatMap (fun p => [Tok.sym p.1, Tok.num p.2]))
        = Tok.sym c :: Tok.num b :: tl.flatMap (fun p => [Tok.sym p.1, Tok.num p.2]) from rfl]
    simp only [sumLoop]
    rw [ih]
    simp only [sumFold, List.foldl_cons]
    congr 1
    simp [Tok.sym.injEq]

/-! ### Assembling `solve_math` on well-formed payloads -/

lemma asString_toList (s : List Char) : (List.asString s).toList = s := rfl

lemma solveMathChars_renderExpr {a : Nat} {l : List (Char × Nat)}
    (h : ∀ p ∈ l, opChar p.1) :
    solveMathChars (renderExpr a l) = some (pyIntStr (precEval a l)) := by
  unfold solveMathChars
  rw [dashNormalize_renderExpr h, renderExpr_tokens h]
  have hne : toToksZ (a : Int) (intify l) ≠ [] := by simp [toToksZ]
  rw [if_neg hne]
  have hlen : (toToksZ (a : Int) (intify l)).length = 1 + 2 * (intify l).length := by
    simp only [toToksZ, List.length_cons, flat_pairs_length]
    omega
  have hml := mulDivLoop_collapse (intify l) [] (a : Int)
    (2 * (toToksZ (a : Int) (intify l)).length + 1) (by rw [hlen]; omega)
  simp only [List.nil_append, List.length_nil] at hml
  rw [hml]
  simp only [toToksZ]
  rw [sumLoop_pairs]
  rfl

lemma collapseMulDiv_plusMinus :
    ∀ (l : List (Char × Int)) (a : Int), (∀ p ∈ l, p.1 = '+' ∨ p.1 = '-') →
      collapseMulDiv a l = (a, l) := by
  intro l
  induction l with
  | nil => intro a _; rfl
  | cons hd tl ih =>
    intro a h
    obtain ⟨c, b⟩ := hd
    have hc : c = '+' ∨ c = '-' := h (c, b) (List.mem_cons_self _ tl)
    have hc1 : c ≠ '*' := by rcases hc with rfl | rfl <;> decide
    have hc2 : c ≠ '/' := by rcases hc with rfl | rfl <;> decide
    simp [collapseMulDiv, hc1, hc2, ih b (fun p hp => h p (List.mem_cons_of_mem _ hp))]

lemma precEval_plusMinus {a : Nat} {l : List (Char × Nat)}
    (h : ∀ p ∈ l, p.1 = '+' ∨ p.1 = '-') : precEval a l = specLeftFold a l := by
  have hz : ∀ p ∈ intify l, p.1 = '+' ∨ p.1 = '-' := by
    intro p hp
    simp only [intify, List.mem_map] at hp
    obtain ⟨q, hq, rfl⟩ := hp
    exact h q hq
  unfold precEval
  rw [collapseMulDiv_plusMinus (intify l) (a : Int) hz]
  unfold specLeftFold sumFold intify
  rw [List.foldl_map]
  apply List.foldl_ext
  intro acc p hp
  rcases h p hp with hc | hc <;> simp [hc]

/-! ### C1: the evaluator versus the spec's strict left-to-right fold -/

/-- C1, counterexample: the payload `"2 + 3 * 4"` (of the claimed form
`a₀ op₁ a₁ op₂ a₂`) is evaluated by `solve_math` to `"14"`, because the
`*` is collapsed first, whereas the strict left-to-right fold claimed by
the spec gives `(2 + 3) * 4 = 20`; so the canonical-answer computation
does not equal the left-to-right fold. -/
theorem solve_math_not_left_fold :
    renderExpr 2 [('+', 3), ('*', 4)] = "2 + 3 * 4".toList
    ∧ solve_math "2 + 3 * 4" = some "14"
    ∧ specLeftFold 2 [('+', 3), ('*', 4)] = 20
    ∧ solve_math "2 + 3 * 4"
        ≠ some (pyIntStr (specLeftFold 2 [('+', 3), ('*', 4)])).asString :=
  ⟨by decide, by decide, by decide, by decide⟩

/-- C1 (amended): for every arithmetic payload `a₀ op₁ a₁ op₂ a₂ …`
(non-negative integers alternating with operators drawn from `+ - * /`),
the server's canonical-answer computation `solve_math` collapses `*` and
`/` first (left to right, `/` being integer floor division with division
by zero yielding `0`) and then folds `+` and `-` left to right; on
payloads whose operators are only `+` and `-` (the only payloads
`questions.generate_mathematics_question` emits) this coincides with the
spec's strict left-to-right fold; and the payload `"6 / 0"` has canonical
answer `"0"`. -/
theorem solve_math_eval (a : Nat) (l : List (Char × Nat))
    (hops : ∀ p ∈ l, opChar p.1) :
    solve_math (renderExpr a l).asString = some (pyIntStr (precEval a l)).asString
    ∧ ((∀ p ∈ l, p.1 = '+' ∨ p.1 = '-') → precEval a l = specLeftFold a l)
    ∧ solve_math "6 / 0" = some "0" := by
  refine ⟨?_, fun hpm => precEval_plusMinus hpm, by decide⟩
  unfold solve_math
  rw [asString_toList, solveMathChars_renderExpr hops]
  rfl

/-- C1 witness: instantiates the theorem at the payload `6 / 0`. -/
theorem solve_math_eval_witness :
    (renderExpr 6 [('/', 0)]).asString = "6 / 0"
    ∧ (solve_math (renderExpr 6 [('/', 0)]).asString
          = some (pyIntStr (precEval 6 [('/', 0)])).asString
       ∧ ((∀ p ∈ [('/', 0)], p.1 = '+' ∨ p.1 = '-')
            → precEval 6 [('/', 0)] = specLeftFold 6 [('/', 0)])
       ∧ solve_math "6 / 0" = some "0") :=
  ⟨by decide, solve_math_eval 6 [('/', 0)] (by decide)⟩

/-! ### C5: Roman numerals

`questions.py::int_to_roman` (lines 8-20):
```python
def int_to_roman(n: int) -> str:
    table = [("M", 1000), ("CM", 900), ("D", 500), ("CD", 400),
             ("C", 100), ("XC", 90), ("L", 50), ("XL", 40),
             ("X", 10), ("IX", 9), ("V", 5), ("IV", 4), ("I", 1)]
    out = []
    for sym, val in table:
        while n >= val:
            out.append(sym)
            n -= val
    return "".join(out)
```

and the server's inline right-to-left subtractive decoder
(`server.py` lines 258-264, repeated in the grace loop at 311-317):
```python
rom = {"I": 1, "V": 5, "X": 10, "L": 50, "C": 100, "D": 500, "M": 1000}
total, prev = 0, 0
for ch in reversed(short_q):
    v = rom.get(ch, 0)
    total += -v if v < prev else v
    prev = v
correct_answer = str(total)
```
-/

def romanTable : List (List Char × Nat) :=
  [(['M'], 1000), (['C','M'], 900), (['D'], 500), (['C','D'], 400),
   (['C'], 100), (['X','C'], 90), (['L'], 50), (['X','L'], 40),
   (['X'], 10), (['I','X'], 9), (['V'], 5), (['I','V'], 4), (['I'], 1)]

/-- The inner `while n >= val: out.append(sym); n -= val` loop.  The fuel
argument makes the recursion structural; since every value in
`romanTable` is at least 1, each iteration strictly decreases `n`, so the
fuel `n + 1` passed by the caller always runs the loop to completion. -/
def emitSym (sym : List Char) (val : Nat) : Nat → Nat → (List Char × Nat)
  | 0, n => ([], n)
  | fuel + 1, n =>
    if val ≤ n then
      let r := emitSym sym val fuel (n - val)
      (sym ++ r.1, r.2)
    else ([], n)

/-- The `for sym, val in table` loop of `int_to_roman`. -/
def int_to_roman_aux : List (List Char × Nat) → Nat → List Char
  | [], _ => []
  | (sym, val) :: rest, n =>
    let r := emitSym sym val (n + 1) n
    r.1 ++ int_to_roman_aux rest r.2

/-- `questions.py::int_to_roman`. -/
def int_to_roman (n : Nat) : List Char := int_to_roman_aux romanTable n

/-- `rom.get(ch, 0)`: the digit values, with unknown characters worth 0. -/
def romValue (ch : Char) : Nat :=
  if ch = 'I' then 1 else if ch = 'V' then 5 else if ch = 'X' then 10
  else if ch = 'L' then 50 else if ch = 'C' then 100 else if ch = 'D' then 500
  else if ch = 'M' then 1000 else 0

/-- The server's right-to-left subtractive decoder: fold over the reversed
numeral carrying `(total, prev)`, subtracting a value smaller than the one
just seen on its right. -/
def romanDecode (s : List Char) : Int :=
  (s.reverse.foldl (fun (st : Int × Int) ch =>
    let v : Int := romValue ch
    (st.1 + (if v < st.2 then -v else v), v)) (0, 0)).1

/-- Combined round-trip check for one value. -/
def romanOK (k : Nat) : Bool := romanDecode (int_to_roman k) == (k : Int)

set_option maxRecDepth 10000 in
lemma romanOK_chunk1 : ((List.range' 1 500).all romanOK) = true := by rfl

set_option maxRecDepth 10000 in
lemma romanOK_chunk2 : ((List.range' 501 500).all romanOK) = true := by rfl

set_option maxRecDepth 10000 in
lemma romanOK_chunk3 : ((List.range' 1001 500).all romanOK) = true := by rfl

set_option maxRecDepth 10000 in
lemma romanOK_chunk4 : ((List.range' 1501 500).all romanOK) = true := by rfl

set_option maxRecDepth 10000 in
lemma romanOK_chunk5 : ((List.range' 2001 500).all romanOK) = true := by rfl

set_option maxRecDepth 10000 in
lemma romanOK_chunk6 : ((List.range' 2501 500).all romanOK) = true := by rfl

set_option maxRecDepth 10000 in
lemma romanOK_chunk7 : ((List.range' 3001 500).all romanOK) = true := by rfl

set_option maxRecDepth 10000 in
lemma romanOK_chunk8 : ((List.range' 3501 499).all romanOK) = true := by rfl

/-- C5: for every integer `n` with `1 ≤ n ≤ 3999`, the server's
right-to-left subtractive decoder applied to `int_to_roman n` yields
exactly `n`. -/
theorem roman_round_trip (n : Nat) (h1 : 1 ≤ n) (h2 : n ≤ 3999) :
    romanDecode (int_to_roman n) = (n : Int) := by
  have hok : romanOK n = true := by
    rcases (by omega :
        n < 501 ∨ (501 ≤ n ∧ n < 1001) ∨ (1001 ≤ n ∧ n < 1501)
        ∨ (1501 ≤ n ∧ n < 2001) ∨ (2001 ≤ n ∧ n < 2501)
        ∨ (2501 ≤ n ∧ n < 3001) ∨ (3001 ≤ n ∧ n < 3501)
        ∨ (3501 ≤ n ∧ n ≤ 3999)) with
      h | h | h | h | h | h | h | h
    · exact List.all_eq_true.mp romanOK_chunk1 n (by rw [List.mem_range'_1]; omega)
    · exact List.all_eq_true.mp romanOK_chunk2 n (by rw [List.mem_range'_1]; omega)
    · exact List.all_eq_true.mp romanOK_chunk3 n (by rw [List.mem_range'_1]; omega)
    · exact List.all_eq_true.mp romanOK_chunk4 n (by rw [List.mem_range'_1]; omega)
    · exact List.all_eq_true.mp romanOK_chunk5 n (by rw [List.mem_range'_1]; omega)
    · exact List.all_eq_true.mp romanOK_chunk6 n (by rw [List.mem_range'_1]; omega)
    · exact List.all_eq_true.mp romanOK_chunk7 n (by rw [List.mem_range'_1]; omega)
    · exact List.all_eq_true.mp romanOK_chunk8 n (by rw [List.mem_range'_1]; omega)
  simpa [romanOK] using hok

/-- C5 witness: the round trip at `n = 1994` (whose numeral is MCMXCIV). -/
theorem roman_round_trip_witness :
    1 ≤ 1994 ∧ 1994 ≤ 3999
    ∧ int_to_roman 1994 = ['M','C','M','X','C','I','V']
    ∧ romanDecode (int_to_roman 1994) = (1994 : Int) :=
  ⟨by decide, by decide, by decide, roman_round_trip 1994 (by decide) (by decide)⟩

/-! ### C7 and C8: subnet questions

`server.py` lines 265-277 (identical code in the grace loop and in
`client.py::usable_count` / `net_and_broadcast`):
```python
elif qtype == "Usable IP Addresses of a Subnet":
    p = int(short_q.split("/")[-1])
    correct_answer = str(0 if p >= 31 else (1 << (32 - p)) - 2)
else:
    ip, p = short_q.split("/")
    a, b, c_, d = map(int, ip.split("."))
    p = int(p)
    addr = (a << 24) | (b << 16) | (c_ << 8) | d
    mask = (0xFFFFFFFF << (32 - p)) & 0xFFFFFFFF
    net = addr & mask
    bc = net | (~mask & 0xFFFFFFFF)
    toip = lambda n: f"..."
    correct_answer = f"{toip(net)} and {toip(bc)}"
```
-/

/-- Python `s.split(sep)` for a one-character separator: the result is
never empty and keeps empty parts. -/
def splitOnChar (sep : Char) : List Char → List (List Char)
  | [] => [[]]
  | c :: cs =>
    if c = sep then [] :: splitOnChar sep cs
    else
      match splitOnChar sep cs with
      | [] => [[c]]
      | part :: parts => (c :: part) :: parts

/-- The dotted-quad rendering `A.B.C.D` of four octet values. -/
def renderIP (a b c d : Nat) : List Char :=
  natStr a ++ '.' :: (natStr b ++ '.' :: (natStr c ++ '.' :: natStr d))

/-- The CIDR payload `A.B.C.D/p`, the shape produced by
`questions.generate_usable_addresses_question` and
`generate_network_broadcast_question`. -/
def renderCIDR (a b c d p : Nat) : List Char :=
  renderIP a b c d ++ '/' :: natStr p

/-- The server's canonical answer for `"Usable IP Addresses of a Subnet"`
(`int` on the all-digit substring after the last `/` is `digitsToNat`). -/
def usableAnswer (shortQ : List Char) : List Char :=
  let p := digitsToNat ((splitOnChar '/' shortQ).getLastD [])
  natStr (if 31 ≤ p then 0 else (1 <<< (32 - p)) - 2)

/-- `toip`: dotted-quad rendering of a 32-bit value. -/
def ipToStr (n : Nat) : List Char :=
  natStr ((n >>> 24) &&& 255) ++ '.' :: (natStr ((n >>> 16) &&& 255)
    ++ '.' :: (natStr ((n >>> 8) &&& 255) ++ '.' :: natStr (n &&& 255)))

/-- The server's canonical answer for
`"Network and Broadcast Address of a Subnet"`.  `none` models the
`ValueError` of a failed tuple unpacking (caught by `main`'s handler).
Python's `~mask & 0xFFFFFFFF` on `0 ≤ mask < 2^32` equals
`0xFFFFFFFF - mask`, which is how the complement is written here. -/
def netBroadcastAnswer (shortQ : List Char) : Option (List Char) :=
  match splitOnChar '/' shortQ with
  | [ip, ps] =>
    match splitOnChar '.' ip with
    | [as, bs, cs, ds] =>
      let a := digitsToNat as
      let b := digitsToNat bs
      let c := digitsToNat cs
      let d := digitsToNat ds
      let p := digitsToNat ps
      let addr := ((a <<< 24) ||| (b <<< 16)) ||| (c <<< 8) ||| d
      let mask := (0xFFFFFFFF <<< (32 - p)) &&& 0xFFFFFFFF
      let net := addr &&& mask
      let bc := net ||| (0xFFFFFFFF - mask)
      some (ipToStr net ++ ' ' :: 'a' :: 'n' :: 'd' :: ' ' :: ipToStr bc)
    | _ => none
  | _ => none

lemma splitOnChar_no_sep {sep : Char} :
    ∀ {xs : List Char}, sep ∉ xs → splitOnChar sep xs = [xs] := by
  intro xs
  induction xs with
  | nil => intro _; rfl
  | cons c cs ih =>
    intro h
    have hc : ¬ c = sep := fun hh => h (hh ▸ List.mem_cons_self c cs)
    have hcs : sep ∉ cs := fun hh => h (List.mem_cons_of_mem c hh)
    simp only [splitOnChar, if_neg hc, ih hcs]

lemma splitOnChar_append {sep : Char} :
    ∀ {xs : List Char} (ys : List Char), sep ∉ xs →
      splitOnChar sep (xs ++ sep :: ys) = xs :: splitOnChar sep ys := by
  intro xs
  induction xs with
  | nil => intro ys _; simp [splitOnChar]
  | cons c cs ih =>
    intro ys h
    have hc : ¬ c = sep := fun hh => h (hh ▸ List.mem_cons_self c cs)
    have hcs : sep ∉ cs := fun hh => h (List.mem_cons_of_mem c hh)
    simp only [List.cons_append, splitOnChar, if_neg hc, List.append_eq]
    rw [ih ys hcs]

lemma not_mem_natStr {sep : Char} (h : sep.isDigit = false) (n : Nat) :
    sep ∉ natStr n := by
  intro hm
  rw [natStr_digits sep hm] at h
  simp at h

lemma slash_not_mem_renderIP {a b c d : Nat} : '/' ∉ renderIP a b c d := by
  intro hm
  simp only [renderIP, List.mem_append, List.mem_cons] at hm
  rcases hm with h | h | h | h | h | h | h <;>
    first
      | exact not_mem_natStr (by decide) _ h
      | exact absurd h (by decide)

lemma dot_not_mem_natStr (n : Nat) : '.' ∉ natStr n :=
  not_mem_natStr (by decide) n

lemma splitOnChar_renderCIDR (a b c d p : Nat) :
    splitOnChar '/' (renderCIDR a b c d p) = [renderIP a b c d, natStr p] := by
  unfold renderCIDR
  rw [splitOnChar_append (natStr p) slash_not_mem_renderIP,
    splitOnChar_no_sep (not_mem_natStr (by decide) p)]

lemma splitOnChar_renderIP (a b c d : Nat) :
    splitOnChar '.' (renderIP a b c d) = [natStr a, natStr b, natStr c, natStr d] := by
  unfold renderIP
  rw [splitOnChar_append _ (dot_not_mem_natStr a),
    splitOnChar_append _ (dot_not_mem_natStr b),
    splitOnChar_append _ (dot_not_mem_natStr c),
    splitOnChar_no_sep (dot_not_mem_natStr d)]

lemma usableAnswer_renderCIDR (a b c d p : Nat) :
    usableAnswer (renderCIDR a b c d p)
      = natStr (if p < 31 then 2 ^ (32 - p) - 2 else 0) := by
  unfold usableAnswer
  rw [splitOnChar_renderCIDR]
  simp only [List.getLastD_cons, List.getLastD_nil, digitsToNat_natStr]
  by_cases h : 31 ≤ p
  · rw [if_pos h, if_neg (by omega)]
  · rw [if_neg h, if_pos (by omega), Nat.one_shiftLeft]

/-- C7: for every CIDR payload `A.B.C.D/p` with `p ≤ 32`, the canonical
usable-address count is `2^(32-p) - 2` when `p < 31` and `0` when `p` is
31 or 32, regardless of the address octets; every `/24` payload yields
`"254"`. -/
theorem usable_count_answer (a b c d p : Nat) (hp : p ≤ 32) :
    usableAnswer (renderCIDR a b c d p)
      = natStr (if p < 31 then 2 ^ (32 - p) - 2 else 0)
    ∧ ((31 ≤ p) → usableAnswer (renderCIDR a b c d p) = natStr 0)
    ∧ (usableAnswer (renderCIDR a b c d 24)).asString = "254" := by
  refine ⟨usableAnswer_renderCIDR a b c d p, ?_, ?_⟩
  · intro h31
    rw [usableAnswer_renderCIDR, if_neg (by omega)]
  · rw [usableAnswer_renderCIDR, if_pos (by omega)]
    rfl

/-- C7 witness: the payload `192.168.1.10/24` and the boundary `/31`. -/
theorem usable_count_answer_witness :
    (24 ≤ 32
      ∧ (usableAnswer (renderCIDR 192 168 1 10 24)
          = natStr (if 24 < 31 then 2 ^ (32 - 24) - 2 else 0)
        ∧ ((31 ≤ 24) → usableAnswer (renderCIDR 192 168 1 10 24) = natStr 0)
        ∧ (usableAnswer (renderCIDR 192 168 1 10 24)).asString = "254"))
    ∧ (usableAnswer (renderCIDR 10 0 0 7 31)).asString = "0"
    ∧ (usableAnswer (renderCIDR 10 0 0 7 32)).asString = "0" :=
  ⟨⟨by decide, usable_count_answer 192 168 1 10 24 (by decide)⟩, by decide, by decide⟩

lemma shiftLeft_masks (p : Nat) (hp : p ≤ 32) :
    (0xFFFFFFFF <<< (32 - p)) &&& 0xFFFFFFFF = 2 ^ 32 - 2 ^ (32 - p) := by
  have h1 : (0xFFFFFFFF : Nat) = 2 ^ 32 - 1 := by norm_num
  rw [h1, Nat.shiftLeft_eq, Nat.and_pow_two_sub_one_eq_mod]
  have hle : 2 ^ (32 - p) ≤ 2 ^ 32 := Nat.pow_le_pow_right (by norm_num) (by omega)
  have hpos : 1 ≤ 2 ^ (32 - p) := Nat.one_le_two_pow
  have h2 : (2 ^ 32 - 1) * 2 ^ (32 - p)
      = 2 ^ 32 * (2 ^ (32 - p) - 1) + (2 ^ 32 - 2 ^ (32 - p)) := by omega
  rw [h2, Nat.mul_add_mod]
  exact Nat.mod_eq_of_lt (by omega)

lemma addr_eq_sum {a b c d : Nat} (ha : a ≤ 255) (hb : b ≤ 255) (hc : c ≤ 255)
    (hd : d ≤ 255) :
    ((a <<< 24) ||| (b <<< 16)) ||| (c <<< 8) ||| d
      = ((a * 256 + b) * 256 + c) * 256 + d := by
  rw [Nat.shiftLeft_eq, Nat.shiftLeft_eq, Nat.shiftLeft_eq,
    Nat.mul_comm a, Nat.mul_comm b, Nat.mul_comm c]
  have s1 : 2 ^ 24 * a ||| 2 ^ 16 * b = 2 ^ 24 * a + 2 ^ 16 * b :=
    (Nat.mul_add_lt_is_or (by omega) a).symm
  have he2 : 2 ^ 24 * a + 2 ^ 16 * b = 2 ^ 16 * (2 ^ 8 * a + b) := by ring
  have s2 : (2 ^ 24 * a + 2 ^ 16 * b) ||| 2 ^ 8 * c
      = 2 ^ 24 * a + 2 ^ 16 * b + 2 ^ 8 * c := by
    rw [he2, ← Nat.mul_add_lt_is_or (by omega) (2 ^ 8 * a + b)]
  have he3 : 2 ^ 24 * a + 2 ^ 16 * b + 2 ^ 8 * c
      = 2 ^ 8 * (2 ^ 16 * a + 2 ^ 8 * b + c) := by ring
  have s3 : (2 ^ 24 * a + 2 ^ 16 * b + 2 ^ 8 * c) ||| d
      = 2 ^ 24 * a + 2 ^ 16 * b + 2 ^ 8 * c + d := by
    rw [he3, ← Nat.mul_add_lt_is_or (by omega) (2 ^ 16 * a + 2 ^ 8 * b + c)]
  rw [s1, s2, s3]
  ring

/-- C8: for every CIDR payload `A.B.C.D/p` (octets and prefix length in
range), the canonical answer is `"<network> and <broadcast>"` where
network = address AND the prefix mask `2^32 - 2^(32-p)` and broadcast =
network OR the inverted mask `2^(32-p) - 1`; in particular
`"192.168.1.10/24"` yields `"192.168.1.0 and 192.168.1.255"`. -/
theorem net_broadcast_answer (a b c d p : Nat) (ha : a ≤ 255) (hb : b ≤ 255)
    (hc : c ≤ 255) (hd : d ≤ 255) (hp : p ≤ 32) :
    netBroadcastAnswer (renderCIDR a b c d p)
      = some (ipToStr ((((a * 256 + b) * 256 + c) * 256 + d) &&& (2 ^ 32 - 2 ^ (32 - p)))
          ++ ' ' :: 'a' :: 'n' :: 'd' :: ' '
          :: ipToStr (((((a * 256 + b) * 256 + c) * 256 + d) &&& (2 ^ 32 - 2 ^ (32 - p)))
              ||| (2 ^ (32 - p) - 1)))
    ∧ (netBroadcastAnswer ("192.168.1.10/24".toList)).map List.asString
        = some "192.168.1.0 and 192.168.1.255" := by
  constructor
  · simp only [netBroadcastAnswer, splitOnChar_renderCIDR, splitOnChar_renderIP,
      digitsToNat_natStr]
    rw [addr_eq_sum ha hb hc hd, shiftLeft_masks p hp]
    have hle : 2 ^ (32 - p) ≤ 2 ^ 32 := Nat.pow_le_pow_right (by norm_num) (by omega)
    have hpos : 1 ≤ 2 ^ (32 - p) := Nat.one_le_two_pow
    have hinv : (0xFFFFFFFF : Nat) - (2 ^ 32 - 2 ^ (32 - p)) = 2 ^ (32 - p) - 1 := by
      omega
    rw [hinv]
  · decide

/-- C8 witness: the payload `192.168.1.10/24`. -/
theorem net_broadcast_answer_witness :
    (netBroadcastAnswer (renderCIDR 192 168 1 10 24)
      = some (ipToStr ((((192 * 256 + 168) * 256 + 1) * 256 + 10) &&& (2 ^ 32 - 2 ^ (32 - 24)))
          ++ ' ' :: 'a' :: 'n' :: 'd' :: ' '
          :: ipToStr (((((192 * 256 + 168) * 256 + 1) * 256 + 10) &&& (2 ^ 32 - 2 ^ (32 - 24)))
              ||| (2 ^ (32 - 24) - 1)))
    ∧ (netBroadcastAnswer ("192.168.1.10/24".toList)).map List.asString
        = some "192.168.1.0 and 192.168.1.255")
    ∧ (renderCIDR 192 168 1 10 24).asString = "192.168.1.10/24" :=
  ⟨net_broadcast_answer 192 168 1 10 24 (by decide) (by decide) (by decide) (by decide)
      (by decide),
    by decide⟩

/-! ### C6: leaderboard and final-standings ranking

`server.py` lines 339-352 (leaderboard) and 360-371 (final standings) run
the same algorithm over `everyone = clients` (disconnected players
included):
```python
rank, last = 0, None
lines = []
for idx, c in enumerate(sorted(everyone, key=lambda x: (-x["score"], x["username"])), start=1):
    if c["score"] != last:
        rank = idx
        last = c["score"]
    ...append(f"{rank}. ...")
```
-/

/-- One entry of the server's `clients` list:
`{"sock": conn, "username": name, "score": 0, "active": True}`. -/
structure Player where
  sock : Nat
  username : String
  score : Nat
  active : Bool
deriving DecidableEq

/-- `key=lambda x: (-x["score"], x["username"])` under Python's ascending
tuple comparison: higher score first, then name ascending (both Python and
Lean compare strings by code point). -/
def rankKeyLE (x y : Player) : Bool :=
  decide (y.score < x.score)
    || (decide (x.score = y.score) && decide (x.username ≤ y.username))

/-- `sorted(everyone, key=...)`; Python's sort is stable and so is
`mergeSort`. -/
def sortPlayers (ps : List Player) : List Player := ps.mergeSort rankKeyLE

/-- The rank-assignment loop shared verbatim by the leaderboard and the
final standings: `rank, last = 0, None` and `enumerate(..., start=1)`;
a new rank is taken exactly when the score differs from `last` (a Python
`int` is never equal to `None`, so the first player always takes rank 1). -/
def rankLoop : Nat → Nat → Option Nat → List Player → List (Nat × Player)
  | _, _, _, [] => []
  | idx, rank, last, p :: rest =>
    if some p.score = last then (rank, p) :: rankLoop (idx + 1) rank last rest
    else (idx, p) :: rankLoop (idx + 1) idx (some p.score) rest

/-- The ranked listing over all players, LEFT players included. -/
def leaderboardRanked (ps : List Player) : List (Nat × Player) :=
  rankLoop 1 0 none (sortPlayers ps)

lemma rankKeyLE_trans (a b c : Player) (h1 : rankKeyLE a b = true)
    (h2 : rankKeyLE b c = true) : rankKeyLE a c = true := by
  simp only [rankKeyLE, Bool.or_eq_true, Bool.and_eq_true, decide_eq_true_eq] at h1 h2 ⊢
  rcases h1 with h1 | ⟨h1s, h1n⟩ <;> rcases h2 with h2 | ⟨h2s, h2n⟩
  · exact Or.inl (lt_trans h2 h1)
  · exact Or.inl (h2s ▸ h1)
  · exact Or.inl (h1s ▸ h2)
  · exact Or.inr ⟨h1s.trans h2s, le_trans h1n h2n⟩

lemma rankKeyLE_total (a b : Player) : (rankKeyLE a b || rankKeyLE b a) = true := by
  simp only [rankKeyLE, Bool.or_eq_true, Bool.and_eq_true, decide_eq_true_eq]
  rcases Nat.lt_trichotomy a.score b.score with h | h | h
  · exact Or.inr (Or.inl h)
  · rcases le_total a.username b.username with hn | hn
    · exact Or.inl (Or.inr ⟨h, hn⟩)
    · exact Or.inr (Or.inr ⟨h.symm, hn⟩)
  · exact Or.inl (Or.inl h)

/-- Scores are non-increasing along the sorted order. -/
lemma sortPlayers_scores (ps : List Player) :
    (sortPlayers ps).Pairwise (fun x y => y.score ≤ x.score) := by
  have hs := List.sorted_mergeSort rankKeyLE_trans rankKeyLE_total ps
  exact hs.imp (fun {x y} h => by
    simp only [rankKeyLE, Bool.or_eq_true, Bool.and_eq_true, decide_eq_true_eq] at h
    rcases h with h | ⟨h, _⟩
    · exact le_of_lt h
    · exact le_of_eq h.symm)

lemma rankLoop_go (L : List Player)
    (hs : L.Pairwise (fun x y => y.score ≤ x.score)) :
    ∀ (rest pre : List Player), L = pre ++ rest →
      ∀ (r : Nat) (last : Option Nat),
        last = pre.getLast?.map Player.score →
        (∀ t, last = some t → r = 1 + L.countP (fun q => decide (t < q.score))) →
        (last = none → pre = []) →
        rankLoop (pre.length + 1) r last rest
          = rest.map (fun p => (1 + L.countP (fun q => decide (p.score < q.score)), p)) := by
  intro rest
  induction rest with
  | nil => intro pre hL r last h1 h2 h3; simp [rankLoop]
  | cons p rest' ih =>
    intro pre hL r last h1 h2 h3
    have hcross : ∀ x ∈ pre, ∀ y ∈ p :: rest', y.score ≤ x.score :=
      (List.pairwise_append.mp (hL ▸ hs)).2.2
    have htail : ∀ y ∈ rest', y.score ≤ p.score :=
      (List.pairwise_cons.mp (List.pairwise_append.mp (hL ▸ hs)).2.1).1
    have hcount0 : (p :: rest').countP (fun q => decide (p.score < q.score)) = 0 := by
      rw [List.countP_eq_zero]
      intro y hy
      simp only [decide_eq_true_eq]
      rcases List.mem_cons.mp hy with rfl | hy'
      · omega
      · have := htail y hy'
        omega
    by_cases heq : some p.score = last
    · obtain ⟨t, ht, hts⟩ : ∃ t, last = some t ∧ t = p.score :=
        ⟨p.score, heq.symm, rfl⟩
      have hr : r = 1 + L.countP (fun q => decide (p.score < q.score)) := by
        have hh := h2 t ht
        rw [hts] at hh
        exact hh
      simp only [rankLoop, if_pos heq, List.map_cons]
      refine congrArg₂ List.cons (by rw [hr]) ?_
      have hpre' : L = (pre ++ [p]) ++ rest' := by
        rw [hL]
        simp
      have hidx : pre.length + 1 + 1 = (pre ++ [p]).length + 1 := by simp
      rw [hidx]
      apply ih (pre ++ [p]) hpre' r last
      · rw [List.getLast?_concat, ht, hts]
        rfl
      · intro t' ht'
        rw [ht] at ht'
        have ht'' : t = t' := by injection ht'
        rw [← ht'', hts]
        exact hr
      · intro hnone
        rw [hnone] at ht
        cases ht
    · have hcountPre : pre.countP (fun q => decide (p.score < q.score)) = pre.length := by
        rw [List.countP_eq_length]
        rcases hpre : pre.getLast? with _ | z
        · have hnil : pre = [] := by
            cases pre with
            | nil => rfl
            | cons a l => simp [List.getLast?_eq_some_iff] at hpre
          rw [hnil]
          intro x hx
          cases hx
        · obtain ⟨init, rfl⟩ := List.getLast?_eq_some_iff.mp hpre
          have hzp : p.score < z.score := by
            have hle : p.score ≤ z.score :=
              hcross z (by simp) p (List.mem_cons_self p rest')
            have hne : p.score ≠ z.score := by
              intro hcon
              apply heq
              rw [h1, hpre, hcon]
              rfl
            omega
          intro x hx
          simp only [decide_eq_true_eq]
          rcases List.mem_append.mp hx with hx' | hx'
          · have hxz : z.score ≤ x.score := by
              have hp := (List.pairwise_append.mp (hL ▸ hs)).1
              exact (List.pairwise_append.mp hp).2.2 x hx' z (by simp)
            omega
          · simp only [List.mem_singleton] at hx'
            rw [hx']
            exact hzp
      have hcountL : L.countP (fun q => decide (p.score < q.score)) = pre.length := by
        rw [hL, List.countP_append, hcountPre, hcount0]
        omega
      simp only [rankLoop, if_neg heq, List.map_cons]
      have hhead : (pre.length + 1, p)
          = (1 + L.countP (fun q => decide (p.score < q.score)), p) := by
        rw [hcountL]
        exact congrArg (fun n => (n, p)) (by omega)
      refine congrArg₂ List.cons hhead ?_
      have hpre' : L = (pre ++ [p]) ++ rest' := by
        rw [hL]
        simp
      have hidx : pre.length + 1 + 1 = (pre ++ [p]).length + 1 := by simp
      rw [hidx]
      apply ih (pre ++ [p]) hpre' (pre.length + 1) (some p.score)
      · rw [List.getLast?_concat]
        rfl
      · intro t' ht'
        have ht'' : p.score = t' := by injection ht'
        rw [← ht'', hcountL]
        omega
      · intro hnone
        cases hnone

/-- The ranked listing, in closed form: the sorted roster, each player
paired with one plus the number of players with a strictly higher score. -/
lemma leaderboardRanked_eq (ps : List Player) :
    leaderboardRanked ps
      = (sortPlayers ps).map
          (fun p => (1 + ps.countP (fun q => decide (p.score < q.score)), p)) := by
  unfold leaderboardRanked
  have hgo := rankLoop_go (sortPlayers ps) (sortPlayers_scores ps) (sortPlayers ps) []
    rfl 0 none rfl (fun t ht => by cases ht) (fun _ => rfl)
  simp only [List.length_nil] at hgo
  rw [hgo]
  have hperm : (sortPlayers ps).Perm ps := List.mergeSort_perm ps rankKeyLE
  apply List.map_congr_left
  intro p _
  rw [hperm.countP_eq]

/-- C6: for every roster (LEFT players included — the code ranks
`everyone = clients`), the ranked listing used by both the leaderboard and
the final standings lists the whole roster sorted by descending score then
ascending name, and gives every player the competition rank
`1 + (number of players with a strictly higher score)`; hence tied scores
share one rank number and the next distinct score takes a rank equal to
one plus the number of players listed above it. -/
theorem leaderboard_ranking (ps : List Player) :
    (leaderboardRanked ps).Pairwise
        (fun x y => y.2.score < x.2.score
          ∨ (x.2.score = y.2.score ∧ x.2.username ≤ y.2.username))
    ∧ ((leaderboardRanked ps).map Prod.snd).Perm ps
    ∧ (∀ pr ∈ leaderboardRanked ps,
        pr.1 = 1 + ps.countP (fun q => decide (pr.2.score < q.score)))
    ∧ (∀ pr ∈ leaderboardRanked ps, ∀ qr ∈ leaderboardRanked ps,
        pr.2.score = qr.2.score → pr.1 = qr.1) := by
  have hrank : ∀ pr ∈ leaderboardRanked ps,
      pr.1 = 1 + ps.countP (fun q => decide (pr.2.score < q.score)) := by
    rw [leaderboardRanked_eq]
    intro pr hpr
    simp only [List.mem_map] at hpr
    obtain ⟨p, _, rfl⟩ := hpr
    rfl
  refine ⟨?_, ?_, hrank, ?_⟩
  · rw [leaderboardRanked_eq, List.pairwise_map]
    have hs := List.sorted_mergeSort rankKeyLE_trans rankKeyLE_total ps
    exact hs.imp (fun {x y} h => by
      simpa only [rankKeyLE, Bool.or_eq_true, Bool.and_eq_true,
        decide_eq_true_eq] using h)
  · rw [leaderboardRanked_eq, List.map_map]
    have hmap : (Prod.snd ∘ fun p : Player =>
        (1 + ps.countP (fun q => decide (p.score < q.score)), p)) = id := rfl
    rw [hmap, List.map_id]
    exact List.mergeSort_perm ps rankKeyLE
  · intro pr hpr qr hqr hsc
    rw [hrank pr hpr, hrank qr hqr, hsc]

/-- C6 witness: a roster with a score tie and a LEFT player (`bob`, whose
recorded score still counts and still outranks everyone). -/
theorem leaderboard_ranking_witness :
    leaderboardRanked
        [Player.mk 1 "alice" 2 true, Player.mk 2 "bob" 3 false,
         Player.mk 3 "carol" 3 true, Player.mk 4 "dave" 1 true]
      = [(1, Player.mk 2 "bob" 3 false), (1, Player.mk 3 "carol" 3 true),
         (3, Player.mk 1 "alice" 2 true), (4, Player.mk 4 "dave" 1 true)]
    ∧ (1, Player.mk 2 "bob" 3 false).1
        = 1 + ([Player.mk 1 "alice" 2 true, Player.mk 2 "bob" 3 false,
            Player.mk 3 "carol" 3 true, Player.mk 4 "dave" 1 true].countP
              (fun q => decide ((1, Player.mk 2 "bob" 3 false).2.score < q.score))) := by
  have hlist : leaderboardRanked
      [Player.mk 1 "alice" 2 true, Player.mk 2 "bob" 3 false,
       Player.mk 3 "carol" 3 true, Player.mk 4 "dave" 1 true]
      = [(1, Player.mk 2 "bob" 3 false), (1, Player.mk 3 "carol" 3 true),
         (3, Player.mk 1 "alice" 2 true), (4, Player.mk 4 "dave" 1 true)] := by
    rw [leaderboardRanked_eq]
    unfold sortPlayers
    simp [List.mergeSort, List.merge, rankKeyLE]
    try decide
  refine ⟨hlist, ?_⟩
  exact (leaderboard_ranking
      [Player.mk 1 "alice" 2 true, Player.mk 2 "bob" 3 false,
       Player.mk 3 "carol" 3 true, Player.mk 4 "dave" 1 true]).2.2.1
    (1, Player.mk 2 "bob" 3 false)
    (by rw [hlist]; decide)

/-! ### The ANSWER handler (server.py lines 246-292)

```python
if msg.get("message_type") != "ANSWER":
    continue
ans = str(msg.get("answer", "")).strip()
if ans == "":
    continue
answered.add(sock)
... compute correct_answer by question type ...
correct = normalize_answer(qtype, ans) == normalize_answer(qtype, correct_answer)
... send RESULT feedback (no game-state change) ...
if correct:
    for c in clients:
        if c["sock"] == sock:
            c["score"] += 1
```
wrapped in `try: ... except Exception: continue`.
-/

/-- Python `str.upper()` on the ASCII range. -/
def pyUpper (c : Char) : Char :=
  if 'a' ≤ c ∧ c ≤ 'z' then Char.ofNat (c.toNat - 32) else c

/-- `re.sub(r"\s+", " ", s)`: collapse every whitespace run into one
space.  Fuel makes the recursion structural; each step consumes at least
one character, so fuel `s.length` runs to completion. -/
def collapseWSAux : Nat → List Char → List Char
  | 0, _ => []
  | fuel + 1, s =>
    match s with
    | [] => []
    | c :: cs =>
      if pyIsSpace c then ' ' :: collapseWSAux fuel (cs.dropWhile pyIsSpace)
      else c :: collapseWSAux fuel cs

def collapseWS (s : List Char) : List Char := collapseWSAux s.length s

/-- `server.py::normalize_answer` (lines 90-99). -/
def normalize_answer (qtype : String) (s0 : List Char) : List Char :=
  let s := pyStrip s0
  if qtype = "Mathematics" then
    (s.filter (fun c => c ≠ ' ')).map (fun c => if c = '-' then '−' else c)
  else if qtype = "Roman Numerals" then
    pyStrip (s.map pyUpper)
  else if qtype = "Network and Broadcast Address of a Subnet" then
    collapseWS (s.map (fun c => if c = ',' then ' ' else c))
  else s

/-- Python `str` on an `int` (no minus-sign replacement here). -/
def intStr (i : Int) : List Char :=
  if i < 0 then '-' :: natStr i.natAbs else natStr i.toNat

/-- The canonical answer computed inside the ANSWER branch (lines
255-277), dispatching on the question-type string exactly as the
if/elif/else chain does.  `none` models an exception escaping the
computation (caught by the handler's `except`); the subnet parsers also
return their value totally here because every claim instantiates them on
payloads of the generator's `A.B.C.D/p` shape, where Python's `int()`
cannot fail. -/
def canonicalAnswer (qtype : String) (shortQ : List Char) : Option (List Char) :=
  if qtype = "Mathematics" then solveMathChars shortQ
  else if qtype = "Roman Numerals" then some (intStr (romanDecode shortQ))
  else if qtype = "Usable IP Addresses of a Subnet" then some (usableAnswer shortQ)
  else netBroadcastAnswer shortQ

/-- The state a single ANSWER message can see: the current question, the
roster and the (write-only) `answered` set, plus the loop's round index. -/
structure RoundState where
  qtype : String
  shortQ : List Char
  clients : List Player
  answered : List Nat
  roundIdx : Nat
deriving DecidableEq

/-- `for c in clients: if c["sock"] == sock: c["score"] += 1`. -/
def scoreSock (clients : List Player) (sid : Nat) : List Player :=
  clients.map (fun c => if c.sock = sid then
    { c with score := c.score + 1 } else c)

/-- `answered.add(sock)` (set semantics; the set is never read again). -/
def addAnswered (answered : List Nat) (sid : Nat) : List Nat :=
  if sid ∈ answered then answered else answered ++ [sid]

/-- Processing one ANSWER message from socket `sid` (lines 246-292).  The
RESULT feedback sent at line 286 carries no game state and is not
modelled. -/
def handleAnswer (st : RoundState) (sid : Nat) (ansRaw : List Char) : RoundState :=
  let ans := pyStrip ansRaw
  if ans = [] then st
  else
    let st1 := { st with answered := addAnswered st.answered sid }
    match canonicalAnswer st1.qtype st1.shortQ with
    | none => st1
    | some ca =>
      if normalize_answer st1.qtype ans = normalize_answer st1.qtype ca then
        { st1 with clients := scoreSock st1.clients sid }
      else st1

lemma handleAnswer_clients (st : RoundState) (sid : Nat) (ansRaw : List Char) :
    (handleAnswer st sid ansRaw).clients = st.clients
    ∨ (handleAnswer st sid ansRaw).clients = scoreSock st.clients sid := by
  unfold handleAnswer
  by_cases h0 : pyStrip ansRaw = []
  · simp [h0]
  · rcases hca : canonicalAnswer st.qtype st.shortQ with _ | ca
    · simp [h0, hca]
    · by_cases hc : normalize_answer st.qtype (pyStrip ansRaw) = normalize_answer st.qtype ca
      · simp [h0, hca, hc]
      · simp [h0, hca, hc]

lemma handleAnswer_frame (st : RoundState) (sid : Nat) (ansRaw : List Char) :
    (handleAnswer st sid ansRaw).qtype = st.qtype
    ∧ (handleAnswer st sid ansRaw).shortQ = st.shortQ
    ∧ (handleAnswer st sid ansRaw).roundIdx = st.roundIdx
    ∧ (handleAnswer st sid ansRaw).clients.map Player.sock = st.clients.map Player.sock
    ∧ (handleAnswer st sid ansRaw).clients.map Player.username
        = st.clients.map Player.username
    ∧ (handleAnswer st sid ansRaw).clients.map Player.active
        = st.clients.map Player.active := by
  have hmaps : ∀ cl sid', (scoreSock cl sid').map Player.sock = cl.map Player.sock
      ∧ (scoreSock cl sid').map Player.username = cl.map Player.username
      ∧ (scoreSock cl sid').map Player.active = cl.map Player.active := by
    intro cl sid'
    refine ⟨?_, ?_, ?_⟩ <;>
      · unfold scoreSock
        rw [List.map_map]
        apply List.map_congr_left
        intro c _
        by_cases h : c.sock = sid' <;> simp [h]
  unfold handleAnswer
  by_cases h0 : pyStrip ansRaw = []
  · simp [h0]
  · rcases hca : canonicalAnswer st.qtype st.shortQ with _ | ca
    · simp [h0, hca]
    · by_cases hc : normalize_answer st.qtype (pyStrip ansRaw) = normalize_answer st.qtype ca
      · simp [h0, hca, hc, (hmaps st.clients sid).1, (hmaps st.clients sid).2.1,
          (hmaps st.clients sid).2.2]
      · simp [h0, hca, hc]

lemma normalize_answer_nil (qtype : String) : normalize_answer qtype [] = [] := by
  unfold normalize_answer
  have h : pyStrip [] = [] := rfl
  split_ifs <;> simp [h, pyStrip, collapseWS, collapseWSAux]

lemma dropWhile_no_sat {p : Char → Bool} :
    ∀ {s : List Char}, (∀ c ∈ s, p c = false) → s.dropWhile p = s := by
  intro s h
  cases s with
  | nil => rfl
  | cons c cs =>
    rw [List.dropWhile_cons, h c (List.mem_cons_self c cs)]
    simp

lemma pyStrip_no_space {s : List Char} (h : ∀ c ∈ s, pyIsSpace c = false) :
    pyStrip s = s := by
  unfold pyStrip
  rw [dropWhile_no_sat h, dropWhile_no_sat (fun c hc => h c (List.mem_reverse.mp hc)),
    List.reverse_reverse]

lemma mem_pyStrip {c : Char} {s : List Char} (h : c ∈ pyStrip s) : c ∈ s := by
  unfold pyStrip at h
  rw [List.mem_reverse] at h
  have h2 := (List.dropWhile_sublist (l := (s.dropWhile pyIsSpace).reverse)
    (p := pyIsSpace)).subset h
  rw [List.mem_reverse] at h2
  exact (List.dropWhile_sublist (l := s) (p := pyIsSpace)).subset h2

/-- A digit appearing in a Mathematics-normalized answer must come from a
digit in the submitted answer: stripping, space removal and the hyphen
replacement neither create nor alter digits. -/
lemma math_digit_source {s : List Char} {d : Char} (hd : d.isDigit) :
    d ∈ normalize_answer "Mathematics" s → ∃ c ∈ s, c.isDigit := by
  intro h
  unfold normalize_answer at h
  rw [if_pos rfl] at h
  simp only [List.mem_map, List.mem_filter] at h
  obtain ⟨c, ⟨hcm, _⟩, hceq⟩ := h
  by_cases hdash : c = '-'
  · rw [if_pos hdash] at hceq
    rw [← hceq] at hd
    exact absurd hd (by decide)
  · rw [if_neg hdash] at hceq
    exact ⟨c, mem_pyStrip hcm, hceq ▸ hd⟩

lemma pyIntStr_chars {v : Int} : ∀ c ∈ pyIntStr v, c.isDigit ∨ c = '−' := by
  intro c hc
  unfold pyIntStr at hc
  split_ifs at hc
  · rcases List.mem_cons.mp hc with rfl | hc'
    · exact Or.inr rfl
    · exact Or.inl (natStr_digits c hc')
  · exact Or.inl (natStr_digits c hc)

lemma normalize_math_pyIntStr (v : Int) :
    normalize_answer "Mathematics" (pyIntStr v) = pyIntStr v := by
  unfold normalize_answer
  rw [if_pos rfl]
  have hns : ∀ c ∈ pyIntStr v, pyIsSpace c = false := by
    intro c hc
    rcases pyIntStr_chars c hc with h | rfl
    · have hnot : ¬ (c = ' ' ∨ c = '\t' ∨ c = '\n' ∨ c = '\x0b' ∨ c = '\x0c' ∨ c = '\r') := by
        rintro (rfl | rfl | rfl | rfl | rfl | rfl) <;> exact absurd h (by decide)
      simpa [pyIsSpace] using hnot
    · decide
  rw [pyStrip_no_space hns]
  have hfil : (pyIntStr v).filter (fun c => c ≠ ' ') = pyIntStr v := by
    rw [List.filter_eq_self]
    intro c hc
    rcases pyIntStr_chars c hc with h | rfl
    · simp only [ne_eq, decide_eq_true_eq]
      intro hsp
      rw [hsp] at h
      exact absurd h (by decide)
    · decide
  rw [hfil]
  have hmap : (pyIntStr v).map (fun c => if c = '-' then '−' else c) = pyIntStr v := by
    have : ∀ c ∈ pyIntStr v, (if c = '-' then '−' else c) = c := by
      intro c hc
      rcases pyIntStr_chars c hc with h | rfl
      · rw [if_neg]
        intro hdash
        rw [hdash] at h
        exact absurd h (by decide)
      · rfl
    calc (pyIntStr v).map (fun c => if c = '-' then '−' else c)
    _ = (pyIntStr v).map id := List.map_congr_left this
    _ = pyIntStr v := List.map_id _
  rw [hmap]

lemma pyIntStr_has_digit (v : Int) : ∃ d ∈ pyIntStr v, d.isDigit := by
  unfold pyIntStr
  split_ifs
  · obtain ⟨d, hd⟩ : ∃ d, d ∈ natStr v.natAbs := by
      rcases hns : natStr v.natAbs with _ | ⟨d, tl⟩
      · exact absurd hns (natStr_ne_nil _)
      · exact ⟨d, List.mem_cons_self d tl⟩
    exact ⟨d, List.mem_cons_of_mem _ hd, natStr_digits d hd⟩
  · obtain ⟨d, hd⟩ : ∃ d, d ∈ natStr v.toNat := by
      rcases hns : natStr v.toNat with _ | ⟨d, tl⟩
      · exact absurd hns (natStr_ne_nil _)
      · exact ⟨d, List.mem_cons_self d tl⟩
    exact ⟨d, hd, natStr_digits d hd⟩

/-- C9: an empty or unparseable submitted answer always resolves to
incorrect: the handler is a total function (any exception in the
canonical-answer computation is caught, modelled by the `none` case),
an empty answer leaves the state untouched, any answer whose normalized
form differs from the normalized canonical answer leaves every score
untouched, and — for a well-formed Mathematics round — an answer without
a single digit can never equal the numeric canonical answer, so it is
always incorrect. -/
theorem empty_or_unparseable_incorrect (st : RoundState) (sid : Nat)
    (ansRaw : List Char) :
    (pyStrip ansRaw = [] → handleAnswer st sid ansRaw = st)
    ∧ (∀ ca, canonicalAnswer st.qtype st.shortQ = some ca →
        normalize_answer st.qtype (pyStrip ansRaw) ≠ normalize_answer st.qtype ca →
        (handleAnswer st sid ansRaw).clients = st.clients)
    ∧ (canonicalAnswer st.qtype st.shortQ = none →
        (handleAnswer st sid ansRaw).clients = st.clients)
    ∧ (st.qtype = "Mathematics" → (∀ c ∈ ansRaw, ¬ c.isDigit) →
        ∀ a l, st.shortQ = renderExpr a l → (∀ p ∈ l, opChar p.1) →
          (handleAnswer st sid ansRaw).clients = st.clients) := by
  have hempty : pyStrip ansRaw = [] → handleAnswer st sid ansRaw = st := by
    intro h
    unfold handleAnswer
    simp [h]
  have hwrong : ∀ ca, canonicalAnswer st.qtype st.shortQ = some ca →
      normalize_answer st.qtype (pyStrip ansRaw) ≠ normalize_answer st.qtype ca →
      (handleAnswer st sid ansRaw).clients = st.clients := by
    intro ca hca hne
    unfold handleAnswer
    by_cases h0 : pyStrip ansRaw = []
    · simp [h0]
    · simp [h0, hca, hne]
  have hexc : canonicalAnswer st.qtype st.shortQ = none →
      (handleAnswer st sid ansRaw).clients = st.clients := by
    intro hca
    unfold handleAnswer
    by_cases h0 : pyStrip ansRaw = []
    · simp [h0]
    · simp [h0, hca]
  refine ⟨hempty, hwrong, hexc, ?_⟩
  intro hq hnod a l hsq hops
  have hca : canonicalAnswer st.qtype st.shortQ = some (pyIntStr (precEval a l)) := by
    rw [hq, hsq]
    unfold canonicalAnswer
    rw [if_pos rfl]
    exact solveMathChars_renderExpr hops
  apply hwrong _ hca
  rw [hq]
  intro hcon
  rw [normalize_math_pyIntStr] at hcon
  obtain ⟨d, hdm, hdd⟩ := pyIntStr_has_digit (precEval a l)
  rw [← hcon] at hdm
  obtain ⟨c, hcm, hcd⟩ := math_digit_source hdd hdm
  exact hnod c (mem_pyStrip hcm) hcd

/-- A round state for a one-player Mathematics round on `6 / 0`. -/
def demoState : RoundState :=
  ⟨"Mathematics", "6 / 0".toList, [Player.mk 1 "alice" 0 true], [], 1⟩

/-- C9 witness: an all-blank answer leaves the state untouched, and the
digit-free answer `"abc"` leaves the scores untouched. -/
theorem empty_or_unparseable_incorrect_witness :
    (handleAnswer demoState 1 "   ".toList = demoState)
    ∧ (handleAnswer demoState 1 "abc".toList).clients = demoState.clients :=
  ⟨(empty_or_unparseable_incorrect demoState 1 "   ".toList).1 (by decide),
   (empty_or_unparseable_incorrect demoState 1 "abc".toList).2.2.2 (by decide)
     (by decide) 6 [('/', 0)] (by decide) (by decide)⟩

lemma get_eq_of_getElemOpt {α : Type} {l : List α} {k : Nat} {hk : k < l.length}
    {x : α} (h : l[k]? = some x) : l.get ⟨k, hk⟩ = x := by
  rw [List.getElem?_eq_getElem hk] at h
  rw [List.get_eq_getElem]
  exact Option.some_injective _ h

lemma scoreSock_get (cl : List Player) (sid : Nat) (k : Nat)
    (hk : k < cl.length) (hk' : k < (scoreSock cl sid).length) :
    ((scoreSock cl sid).get ⟨k, hk'⟩).score
      = (cl.get ⟨k, hk⟩).score + (if (cl.get ⟨k, hk⟩).sock = sid then 1 else 0) := by
  unfold scoreSock
  simp only [List.get_eq_getElem, List.getElem_map]
  by_cases h : cl[k].sock = sid <;> simp [h]

lemma handleAnswer_clients_length (st : RoundState) (sid : Nat) (ansRaw : List Char) :
    (handleAnswer st sid ansRaw).clients.length = st.clients.length := by
  have h := (handleAnswer_frame st sid ansRaw).2.2.2.1
  have := congrArg List.length h
  simpa using this

/-- The per-position score formula for one ANSWER message: the score of
the `k`-th roster entry grows by exactly one when that entry is the sender
and the normalized submission equals the normalized canonical answer, and
is untouched otherwise.  The hypothesis `hne` (the canonical answer does
not normalize to the empty string) holds for every question the generators
produce and rules out the unreachable corner in which an all-blank
submission would equal an empty canonical answer yet be skipped by the
`if ans == ""` guard. -/
lemma handleAnswer_score (st : RoundState) (sid : Nat) (ansRaw : List Char)
    (ca : List Char)
    (hca : canonicalAnswer st.qtype st.shortQ = some ca)
    (hne : normalize_answer st.qtype ca ≠ []) :
    ∀ k (hk : k < st.clients.length)
      (hk' : k < (handleAnswer st sid ansRaw).clients.length),
      (((handleAnswer st sid ansRaw).clients.get ⟨k, hk'⟩)).score
        = ((st.clients.get ⟨k, hk⟩)).score
          + (if (st.clients.get ⟨k, hk⟩).sock = sid
                ∧ normalize_answer st.qtype (pyStrip ansRaw)
                    = normalize_answer st.qtype ca
             then 1 else 0) := by
  intro k hk hk'
  by_cases h0 : pyStrip ansRaw = []
  · have hne' : normalize_answer st.qtype (pyStrip ansRaw) ≠ normalize_answer st.qtype ca := by
      rw [h0, normalize_answer_nil]
      exact fun hcon => hne hcon.symm
    have hst : handleAnswer st sid ansRaw = st := by
      unfold handleAnswer
      simp [h0]
    have hopt : (handleAnswer st sid ansRaw).clients[k]? = some (st.clients.get ⟨k, hk⟩) := by
      rw [hst, List.getElem?_eq_getElem hk, List.get_eq_getElem]
    rw [get_eq_of_getElemOpt hopt, if_neg (fun hcon => hne' hcon.2)]
    omega
  · by_cases hc : normalize_answer st.qtype (pyStrip ansRaw) = normalize_answer st.qtype ca
    · have hcl : (handleAnswer st sid ansRaw).clients = scoreSock st.clients sid := by
        unfold handleAnswer
        simp [h0, hca, hc]
      have hk'' : k < (scoreSock st.clients sid).length := by
        rw [← hcl]
        exact hk'
      have hopt : (handleAnswer st sid ansRaw).clients[k]?
          = some ((scoreSock st.clients sid).get ⟨k, hk''⟩) := by
        rw [hcl, List.getElem?_eq_getElem hk'', List.get_eq_getElem]
      rw [get_eq_of_getElemOpt hopt, scoreSock_get st.clients sid k hk hk'']
      by_cases hs : (st.clients.get ⟨k, hk⟩).sock = sid
      · rw [if_pos hs, if_pos ⟨hs, hc⟩]
      · rw [if_neg hs, if_neg (fun hcon => hs hcon.1)]
    · have hcl : (handleAnswer st sid ansRaw).clients = st.clients := by
        unfold handleAnswer
        simp [h0, hca, hc]
      have hopt : (handleAnswer st sid ansRaw).clients[k]? = some (st.clients.get ⟨k, hk⟩) := by
        rw [hcl, List.getElem?_eq_getElem hk, List.get_eq_getElem]
      rw [get_eq_of_getElemOpt hopt, if_neg (fun hcon => hc hcon.2)]
      omega

/-- C10: one ANSWER message mutates at most the sender's score — the
`k`-th roster entry gains exactly 1 when it is the sender and the
normalized submission equals the normalized canonical answer, and is
unchanged otherwise — while every socket, display name, liveness flag,
the question and the round index stay unchanged; and since the `answered`
set is never consulted, a second identical correct ANSWER in the same
round scores again (nothing prevents double scoring). -/
theorem answer_frame_effect (st : RoundState) (sid : Nat) (ansRaw : List Char)
    (ca : List Char)
    (hca : canonicalAnswer st.qtype st.shortQ = some ca)
    (hne : normalize_answer st.qtype ca ≠ []) :
    ((handleAnswer st sid ansRaw).qtype = st.qtype
      ∧ (handleAnswer st sid ansRaw).shortQ = st.shortQ
      ∧ (handleAnswer st sid ansRaw).roundIdx = st.roundIdx
      ∧ (handleAnswer st sid ansRaw).clients.map Player.sock
          = st.clients.map Player.sock
      ∧ (handleAnswer st sid ansRaw).clients.map Player.username
          = st.clients.map Player.username
      ∧ (handleAnswer st sid ansRaw).clients.map Player.active
          = st.clients.map Player.active)
    ∧ (∀ k (hk : k < st.clients.length)
        (hk' : k < (handleAnswer st sid ansRaw).clients.length),
        (((handleAnswer st sid ansRaw).clients.get ⟨k, hk'⟩)).score
          = ((st.clients.get ⟨k, hk⟩)).score
            + (if (st.clients.get ⟨k, hk⟩).sock = sid
                  ∧ normalize_answer st.qtype (pyStrip ansRaw)
                      = normalize_answer st.qtype ca
               then 1 else 0))
    ∧ (∀ k (hk : k < st.clients.length)
        (hk2 : k < (handleAnswer (handleAnswer st sid ansRaw) sid ansRaw).clients.length),
        (((handleAnswer (handleAnswer st sid ansRaw) sid ansRaw).clients.get
            ⟨k, hk2⟩)).score
          = ((st.clients.get ⟨k, hk⟩)).score
            + 2 * (if (st.clients.get ⟨k, hk⟩).sock = sid
                  ∧ normalize_answer st.qtype (pyStrip ansRaw)
                      = normalize_answer st.qtype ca
               then 1 else 0)) := by
  have hfr := handleAnswer_frame st sid ansRaw
  refine ⟨hfr, handleAnswer_score st sid ansRaw ca hca hne, ?_⟩
  intro k hk hk2
  set st' := handleAnswer st sid ansRaw with hst'
  have hq : st'.qtype = st.qtype := hfr.1
  have hsq : st'.shortQ = st.shortQ := hfr.2.1
  have hca' : canonicalAnswer st'.qtype st'.shortQ = some ca := by
    rw [hq, hsq]
    exact hca
  have hne' : normalize_answer st'.qtype ca ≠ [] := by
    rw [hq]
    exact hne
  have hk1 : k < st'.clients.length := by
    rw [handleAnswer_clients_length]
    exact hk
  have h2 := handleAnswer_score st' sid ansRaw ca hca' hne' k hk1 hk2
  have h1 := handleAnswer_score st sid ansRaw ca hca hne k hk hk1
  rw [h2, h1]
  have hsock : (st'.clients.get ⟨k, hk1⟩).sock = (st.clients.get ⟨k, hk⟩).sock := by
    have hmap := hfr.2.2.2.1
    have := congrArg (fun l => l.get? k) hmap
    simp only [List.get?_eq_getElem?, List.getElem?_map] at this
    rw [List.getElem?_eq_getElem hk1, List.getElem?_eq_getElem hk] at this
    simpa using this
  rw [hq, hsock]
  by_cases hcond : (st.clients.get ⟨k, hk⟩).sock = sid
      ∧ normalize_answer st.qtype (pyStrip ansRaw) = normalize_answer st.qtype ca
  · rw [if_pos hcond]
  · rw [if_neg hcond]

/-- C10 witness: in `demoState` (one player, socket 1, Mathematics round
on `6 / 0`), the correct answer `"0"` scores exactly once per message and
twice over two identical messages. -/
theorem answer_frame_effect_witness :
    (canonicalAnswer demoState.qtype demoState.shortQ = some ("0".toList)
      ∧ normalize_answer demoState.qtype ("0".toList) ≠ [])
    ∧ (handleAnswer demoState 1 "0".toList).clients.map Player.score = [1]
    ∧ (handleAnswer (handleAnswer demoState 1 "0".toList) 1 "0".toList).clients.map
        Player.score = [2]
    ∧ (((handleAnswer demoState 1 "0".toList).clients.get
          ⟨0, by decide⟩)).score
        = ((demoState.clients.get ⟨0, by decide⟩)).score
          + (if (demoState.clients.get ⟨0, by decide⟩).sock = 1
                ∧ normalize_answer demoState.qtype (pyStrip "0".toList)
                    = normalize_answer demoState.qtype ("0".toList)
             then 1 else 0) :=
  ⟨⟨by decide, by decide⟩, by decide, by decide,
    (answer_frame_effect demoState 1 "0".toList ("0".toList) (by decide)
        (by decide)).2.1 0 (by decide) (by decide)⟩

/-! ### C2 and C3: the collection window, the grace period, the round loop

`server.py` lines 212-243 (event routing and the everyone-left early
return), 294-335 (grace period) and 186-355 (the question loop with its
early break at line 354).
-/

/-- A message-level event arriving on a player's socket: an ANSWER
carrying an answer string, a disconnect (zero-byte read, reported by
`recv_json` as DISCONNECTED, or an explicit leave), or any other message
(ignored by the loop at line 246). -/
inductive Ev where
  | answer (sid : Nat) (ans : List Char)
  | disconnect (sid : Nat)
  | other (sid : Nat)
deriving DecidableEq

/-- `for c in clients: if c["sock"] == sock: c["active"] = False`. -/
def markLeft (clients : List Player) (sid : Nat) : List Player :=
  clients.map (fun c => if c.sock = sid then { c with active := false } else c)

/-- Whether `sid` is the socket of an ACTIVE client; `select` polls only
those sockets (line 217), so events can only come from them. -/
def isActiveSock (clients : List Player) (sid : Nat) : Bool :=
  clients.any (fun c => c.sock = sid && c.active)

/-- One event as routed by lines 218-292.  The flag is true when a
disconnect emptied the roster, upon which `main` broadcasts FINISHED and
returns (lines 235-243); the BYE broadcast to the others carries no game
state and is not modelled. -/
def stepEv (st : RoundState) : Ev → RoundState × Bool
  | Ev.answer sid a =>
    (if isActiveSock st.clients sid then handleAnswer st sid a else st, false)
  | Ev.disconnect sid =>
    if isActiveSock st.clients sid then
      let st' := { st with clients := markLeft st.clients sid }
      (st', st'.clients.all (fun c => !c.active))
    else (st, false)
  | Ev.other _ => (st, false)

/-- Process a batch of ready events, stopping at an early return. -/
def processEvents : RoundState → List Ev → RoundState × Bool
  | st, [] => (st, false)
  | st, e :: es =>
    let r := stepEv st e
    if r.2 then (r.1, true) else processEvents r.1 es

/-- The COLLECTING_ANSWERS loop (lines 212-292) against a simulated
clock: each iteration checks `remaining = deadline - now <= 0`, breaking
at the deadline, and otherwise processes every event that has arrived by
`now`.  The recursion is structural on `remaining`, with
`now = deadline - remaining`. -/
def mainLoopAux (deadline : Nat) :
    Nat → RoundState × Bool → List (Nat × Ev) → RoundState × Bool
  | 0, s, _ => s
  | rem + 1, s, evs =>
    if s.2 then s
    else
      let now := deadline - (rem + 1)
      mainLoopAux deadline rem
        (processEvents s.1 ((evs.filter (fun e => decide (e.1 ≤ now))).map Prod.snd))
        (evs.filter (fun e => ! decide (e.1 ≤ now)))

def collectAnswers (deadline : Nat) (st : RoundState) (evs : List (Nat × Ev)) :
    RoundState × Bool :=
  mainLoopAux deadline deadline (st, false) evs

/-- The number of poll iterations `recv_json` (lines 61-83) can run
within `timeout` centiseconds: the guard `time.time() - start < timeout`
is already false at the first check whenever `timeout ≤ 0`, because the
elapsed time is never negative — so a zero timeout yields zero polls. -/
def recvJsonPolls (timeoutCs : Int) : Nat :=
  if timeoutCs ≤ 0 then 0 else (timeoutCs.toNat + 4) / 5

/-- `recv_json` at message granularity: a poll returns the next complete
buffered message if one is pending; with no poll budget nothing is read. -/
def recvJsonPending : Nat → List Ev → Option Ev
  | 0, _ => none
  | _ + 1, [] => none
  | _ + 1, e :: _ => some e

/-- One grace-loop body (lines 300-335): `msg = recv_json(sock, 0.0)`,
the ANSWER check, and the same scoring computation as the main loop
(without `answered.add` and without a RESULT message).  The scoring path
is syntactically present but unreachable: `recv_json` with timeout `0.0`
makes zero polls and returns `None`. -/
def graceStep (st : RoundState) (pending : List Ev) : RoundState :=
  match recvJsonPending (recvJsonPolls 0) pending with
  | none => st
  | some (Ev.answer sid a) =>
    let ans := pyStrip a
    if ans = [] then st
    else
      match canonicalAnswer st.qtype st.shortQ with
      | none => st
      | some ca =>
        if normalize_answer st.qtype ans = normalize_answer st.qtype ca then
          { st with clients := scoreSock st.clients sid }
        else st
  | some _ => st

/-- The grace-period drain (lines 294-335) over the ready sockets'
still-buffered messages. -/
def graceLoop (st : RoundState) (pendings : List (List Ev)) : RoundState :=
  pendings.foldl graceStep st

lemma graceStep_id (st : RoundState) (pending : List Ev) : graceStep st pending = st := rfl

lemma graceLoop_id (st : RoundState) :
    ∀ pendings : List (List Ev), graceLoop st pendings = st := by
  intro pendings
  induction pendings with
  | nil => rfl
  | cons p ps ih =>
    unfold graceLoop at ih ⊢
    rw [List.foldl_cons, graceStep_id]
    exact ih

lemma mainLoopAux_filter (deadline : Nat) :
    ∀ (rem : Nat) (s : RoundState × Bool) (evs : List (Nat × Ev)), rem ≤ deadline →
      mainLoopAux deadline rem s evs
        = mainLoopAux deadline rem s (evs.filter (fun e => decide (e.1 < deadline))) := by
  intro rem
  induction rem with
  | zero => intro s evs _; rfl
  | succ r ih =>
    intro s evs hrem
    unfold mainLoopAux
    by_cases hab : s.2
    · simp [hab]
    · simp only [hab, if_false, Bool.false_eq_true]
      have hnow : deadline - (r + 1) < deadline := by omega
      have hready : (evs.filter (fun e => decide (e.1 < deadline))).filter
            (fun e => decide (e.1 ≤ deadline - (r + 1)))
          = evs.filter (fun e => decide (e.1 ≤ deadline - (r + 1))) := by
        rw [List.filter_filter]
        apply List.filter_congr
        intro e _
        by_cases he : e.1 ≤ deadline - (r + 1)
        · have : e.1 < deadline := by omega
          simp [he, this]
        · simp [he]
      have hrest : (evs.filter (fun e => decide (e.1 < deadline))).filter
            (fun e => ! decide (e.1 ≤ deadline - (r + 1)))
          = (evs.filter (fun e => ! decide (e.1 ≤ deadline - (r + 1)))).filter
              (fun e => decide (e.1 < deadline)) := by
        rw [List.filter_filter, List.filter_filter]
        apply List.filter_congr
        intro e _
        rw [Bool.and_comm]
      rw [hready, hrest]
      exact ih _ _ (by omega)

/-- C2: nothing received after the round's deadline affects that round's
scores.  First, the whole post-deadline grace drain is the identity on the
game state, whatever is still buffered on the players' sockets (a zero
timeout reads nothing); second, the collection phase itself is fully
determined by the events that arrived strictly before the deadline —
events with later timestamps can be discarded without changing the
resulting state. -/
theorem round_sealing (deadline : Nat) (st : RoundState) (evs : List (Nat × Ev))
    (pendings : List (List Ev)) :
    graceLoop (collectAnswers deadline st evs).1 pendings
      = (collectAnswers deadline st evs).1
    ∧ collectAnswers deadline st evs
        = collectAnswers deadline st (evs.filter (fun e => decide (e.1 < deadline))) :=
  ⟨graceLoop_id _ pendings,
   mainLoopAux_filter deadline deadline (st, false) evs (Nat.le_refl _)⟩

/-! ### C3: what a disconnect does to the round plan -/

/-- One configured round: question, deadline, the timed events of its
collection window and the buffers left for its grace period. -/
structure RoundSpec where
  qtype : String
  shortQ : List Char
  deadline : Nat
  evs : List (Nat × Ev)
  pendings : List (List Ev)
deriving DecidableEq

/-- One full round: fresh `answered` set, collection window, the
everyone-left early return, then the grace drain (the leaderboard
broadcast of lines 339-352 carries no game state). -/
def playRound (r : RoundSpec) (clients : List Player) (i : Nat) :
    List Player × Bool :=
  let st0 : RoundState := ⟨r.qtype, r.shortQ, clients, [], i⟩
  let c := collectAnswers r.deadline st0 r.evs
  if c.2 then (c.1.clients, true)
  else ((graceLoop c.1 r.pendings).clients, false)

/-- The question loop of lines 186-355: rounds are played in order; after
each round the loop breaks when any client is no longer active
(`if any(not c["active"] for c in clients): break`, line 354), and
returns immediately when a disconnect emptied the roster.  Returns the
final roster, the number of rounds actually played, and whether the
everyone-left return fired. -/
def questionLoop : List RoundSpec → List Player → Nat → List Player × Nat × Bool
  | [], cl, _ => (cl, 0, false)
  | r :: rest, cl, i =>
    let p := playRound r cl i
    if p.2 then (p.1, 1, true)
    else if p.1.any (fun c => !c.active) then (p.1, 1, false)
    else
      let q := questionLoop rest p.1 (i + 1)
      (q.1, q.2.1 + 1, q.2.2)

/-- The two configured rounds and the two-player roster of the
counterexample: `bob` disconnects at time 0 of round 1 while `alice`
stays. -/
def crRounds : List RoundSpec :=
  [⟨"Mathematics", "1 + 1".toList, 1, [(0, Ev.disconnect 2)], []⟩,
   ⟨"Mathematics", "2 + 2".toList, 1, [], []⟩]

def crClients : List Player :=
  [Player.mk 1 "alice" 0 true, Player.mk 2 "bob" 0 true]

/-- C3, counterexample: with two configured rounds and two players, `bob`
disconnects during round 1 while `alice` remains ACTIVE; the game is not
aborted mid-round, yet only one of the two configured rounds is played —
the loop breaks before round 2, contradicting "every remaining configured
round is still played". -/
theorem disconnect_skips_rounds_cex :
    crRounds.length = 2
    ∧ (questionLoop crRounds crClients 1).2.1 = 1
    ∧ (questionLoop crRounds crClients 1).2.2 = false
    ∧ ((questionLoop crRounds crClients 1).1.any (fun c => c.active)) = true
    ∧ ((questionLoop crRounds crClients 1).1.any (fun c => !c.active)) = true :=
  ⟨rfl, by decide, by decide, by decide, by decide⟩

/-- C3 (amended): a disconnect while at least one other player remains
ACTIVE never aborts the round in progress — the remaining events of the
current round are still processed normally — but, contrary to the claim,
the remaining configured rounds are not played: the round loop breaks
right after the round (and its leaderboard) in which the disconnection
happened, moving to final standings; when instead every player remains
active after a round, the loop does continue with the remaining rounds. -/
theorem disconnect_breaks_round_plan
    (st : RoundState) (sid : Nat) (es : List Ev)
    (r : RoundSpec) (rest : List RoundSpec) (cl : List Player) (i : Nat)
    (hact : isActiveSock st.clients sid = true)
    (hleft : ((markLeft st.clients sid).all (fun c => !c.active)) = false) :
    processEvents st (Ev.disconnect sid :: es)
      = processEvents { st with clients := markLeft st.clients sid } es
    ∧ ((playRound r cl i).2 = false →
        ((playRound r cl i).1.any (fun c => !c.active)) = true →
        questionLoop (r :: rest) cl i = ((playRound r cl i).1, 1, false))
    ∧ ((playRound r cl i).2 = false →
        ((playRound r cl i).1.any (fun c => !c.active)) = false →
        questionLoop (r :: rest) cl i
          = ((questionLoop rest (playRound r cl i).1 (i + 1)).1,
             (questionLoop rest (playRound r cl i).1 (i + 1)).2.1 + 1,
             (questionLoop rest (playRound r cl i).1 (i + 1)).2.2)) := by
  refine ⟨?_, ?_, ?_⟩
  · have hstep : stepEv st (Ev.disconnect sid)
        = ({ st with clients := markLeft st.clients sid }, false) := by
      unfold stepEv
      simp [hact, hleft]
    conv_lhs => rw [processEvents]
    rw [hstep]
    simp
  · intro hp hany
    unfold questionLoop
    simp [hp, hany]
  · intro hp hany
    conv_lhs => rw [questionLoop]
    simp [hp, hany]

/-- C3 witness: the counterexample scenario instantiates the amended
theorem — `bob`'s disconnect leaves `alice` active, round 1 completes and
the loop stops after it. -/
theorem disconnect_breaks_round_plan_witness :
    (isActiveSock crClients 2 = true
      ∧ ((markLeft crClients 2).all (fun c => !c.active)) = false)
    ∧ (processEvents ⟨"Mathematics", "1 + 1".toList, crClients, [], 1⟩
          (Ev.disconnect 2 :: [])
        = processEvents ⟨"Mathematics", "1 + 1".toList, markLeft crClients 2, [], 1⟩ [])
    ∧ questionLoop crRounds crClients 1
        = ((playRound (⟨"Mathematics", "1 + 1".toList, 1, [(0, Ev.disconnect 2)], []⟩)
            crClients 1).1, 1, false) := by
  refine ⟨⟨by decide, by decide⟩, ?_, ?_⟩
  · exact (disconnect_breaks_round_plan
      ⟨"Mathematics", "1 + 1".toList, crClients, [], 1⟩ 2 []
      (⟨"Mathematics", "1 + 1".toList, 1, [(0, Ev.disconnect 2)], []⟩) [] crClients 1
      (by decide) (by decide)).1
  · have h := (disconnect_breaks_round_plan
      ⟨"Mathematics", "1 + 1".toList, crClients, [], 1⟩ 2 []
      (⟨"Mathematics", "1 + 1".toList, 1, [(0, Ev.disconnect 2)], []⟩)
      [⟨"Mathematics", "2 + 2".toList, 1, [], []⟩] crClients 1
      (by decide) (by decide)).2.1 (by decide) (by decide)
    exact h

/-! ### C4: the wire codec

`server.py::recv_json` (lines 61-83) accumulates chunks and retries
`json.JSONDecoder().raw_decode` on the whole buffer:
```python
buf += chunk
try:
    obj, idx = dec.raw_decode(buf)
    if idx == len(buf) or not buf[idx:].strip():
        return obj
except json.JSONDecodeError:
    continue
```
`client.py::iter_messages` (lines 48-71) splits the buffer at newlines
and drops a line that fails `json.loads`:
```python
i = buf.find(b"\n")
line = buf[:i].strip()
del buf[:i+1]
try: yield json.loads(line.decode("utf-8"))
except json.JSONDecodeError: continue
```
JSON itself is modelled by a small recursive-descent parser covering the
protocol's value shapes (objects, arrays, strings with the common
escapes, integers, `true`/`false`/`null`); fractions, exponents and
`\uXXXX` escapes do not occur on this wire and are treated as parse
failures. -/

def lbrace : Char := Char.ofNat 123

def rbrace : Char := Char.ofNat 125

/-- The whitespace JSON itself skips between tokens. -/
def jsonWS (c : Char) : Bool := c = ' ' ∨ c = '\t' ∨ c = '\n' ∨ c = '\r'

def skipWS (s : List Char) : List Char := s.dropWhile jsonWS

inductive JVal where
  | jnull
  | jbool (b : Bool)
  | jnum (n : Int)
  | jstr (s : List Char)
  | jarr (xs : List JVal)
  | jobj (fields : List (List Char × JVal))

/-- The body of a JSON string, after the opening quote. -/
def parseStringBody : Nat → List Char → Option (List Char × List Char)
  | 0, _ => none
  | fuel + 1, s =>
    match s with
    | [] => none
    | c :: cs =>
      if c = '"' then some ([], cs)
      else if c = '\\' then
        match cs with
        | [] => none
        | e :: cs2 =>
          let d : Option Char :=
            if e = '"' then some '"' else if e = '\\' then some '\\'
            else if e = '/' then some '/' else if e = 'n' then some '\n'
            else if e = 't' then some '\t' else if e = 'r' then some '\r'
            else none
          match d with
          | none => none
          | some dc => (parseStringBody fuel cs2).map (fun r => (dc :: r.1, r.2))
      else (parseStringBody fuel cs).map (fun r => (c :: r.1, r.2))

def parseNatNum (s : List Char) : Option (Nat × List Char) :=
  let ds := s.takeWhile Char.isDigit
  if ds = [] then none else some (digitsToNat ds, s.drop ds.length)

def parseIntNum (s : List Char) : Option (Int × List Char) :=
  match s with
  | '-' :: rest => (parseNatNum rest).map (fun r => (-(r.1 : Int), r.2))
  | _ => (parseNatNum s).map (fun r => ((r.1 : Int), r.2))

/-- What the parser is currently reading: a value, the members of an
object (after its first `.value` key quote), or the items of an array. -/
inductive PMode where
  | value
  | members
  | items

/-- The recursive-descent JSON parser, structural on fuel (one shared
function so the kernel can evaluate it; fuel `length + 1` suffices for
every input because each recursive step consumes at least one character). -/
def parseJ : Nat → PMode → List Char → Option (JVal × List Char)
  | 0, _, _ => none
  | fuel + 1, PMode.value, s =>
    match s with
    | [] => none
    | c :: cs =>
      if c = lbrace then
        match skipWS cs with
        | c2 :: cs2 =>
          if c2 = rbrace then some (JVal.jobj [], cs2)
          else parseJ fuel PMode.members (c2 :: cs2)
        | [] => none
      else if c = '[' then
        match skipWS cs with
        | c2 :: cs2 =>
          if c2 = ']' then some (JVal.jarr [], cs2)
          else parseJ fuel PMode.items (c2 :: cs2)
        | [] => none
      else if c = '"' then
        (parseStringBody (cs.length + 1) cs).map (fun r => (JVal.jstr r.1, r.2))
      else if c = 't' then
        match cs with
        | 'r' :: 'u' :: 'e' :: rest => some (JVal.jbool true, rest)
        | _ => none
      else if c = 'f' then
        match cs with
        | 'a' :: 'l' :: 's' :: 'e' :: rest => some (JVal.jbool false, rest)
        | _ => none
      else if c = 'n' then
        match cs with
        | 'u' :: 'l' :: 'l' :: rest => some (JVal.jnull, rest)
        | _ => none
      else if c = '-' ∨ c.isDigit then
        (parseIntNum s).map (fun r => (JVal.jnum r.1, r.2))
      else none
  | fuel + 1, PMode.members, s =>
    match s with
    | '"' :: cs =>
      match parseStringBody (cs.length + 1) cs with
      | none => none
      | some (key, rest) =>
        match skipWS rest with
        | ':' :: rest2 =>
          match parseJ fuel PMode.value (skipWS rest2) with
          | none => none
          | some (v, rest3) =>
            match skipWS rest3 with
            | c :: rest4 =>
              if c = ',' then
                match parseJ fuel PMode.members (skipWS rest4) with
                | some (JVal.jobj flds, rest5) =>
                  some (JVal.jobj ((key, v) :: flds), rest5)
                | _ => none
              else if c = rbrace then some (JVal.jobj [(key, v)], rest4)
              else none
            | [] => none
        | _ => none
    | _ => none
  | fuel + 1, PMode.items, s =>
    match parseJ fuel PMode.value s with
    | none => none
    | some (v, rest) =>
      match skipWS rest with
      | c :: rest2 =>
        if c = ',' then
          match parseJ fuel PMode.items (skipWS rest2) with
          | some (JVal.jarr xs, rest3) => some (JVal.jarr (v :: xs), rest3)
          | _ => none
        else if c = ']' then some (JVal.jarr [v], rest2)
        else none
      | [] => none

/-- `json.loads` on one line: one value, surrounding whitespace allowed,
nothing but whitespace after it. -/
def jsonLoads (s : List Char) : Option JVal :=
  let t := skipWS s
  match parseJ (t.length + 1) PMode.value t with
  | some (v, rest) => if skipWS rest = [] then some v else none
  | none => none

/-- `json.JSONDecoder().raw_decode`: one value starting at index 0 (no
leading-whitespace skip), returning the value and the remaining text
(Python returns the end index instead). -/
def rawDecode (s : List Char) : Option (JVal × List Char) :=
  parseJ (s.length + 1) PMode.value s

/-- `i = buf.find(b"\n")`: the text before the first newline and the text
after it, or `none` when there is no newline yet. -/
def splitFirstNL (buf : List Char) : Option (List Char × List Char) :=
  match buf.dropWhile (fun c => c ≠ '\n') with
  | [] => none
  | _ :: rest => some (buf.takeWhile (fun c => c ≠ '\n'), rest)

/-- The inner `while` of `iter_messages`: extract every complete line of
the buffer, stripping it, skipping blank lines, yielding the decodable
ones and silently dropping the rest; returns the yielded messages and the
leftover partial line.  Fuel `buf.length` suffices (each step drops at
least the newline). -/
def drainLines : Nat → List Char → List JVal × List Char
  | 0, buf => ([], buf)
  | fuel + 1, buf =>
    match splitFirstNL buf with
    | none => ([], buf)
    | some (line, rest) =>
      let l := pyStrip line
      if l = [] then drainLines fuel rest
      else
        match jsonLoads l with
        | some v =>
          let r := drainLines fuel rest
          (v :: r.1, r.2)
        | none => drainLines fuel rest

/-- `client.py::iter_messages` over a chunked byte stream: a zero-byte
read ends the stream, anything else is appended to the buffer and its
complete lines drained (the timeout heartbeat ticks yield no message and
are not modelled). -/
def iterMessages : List (List Char) → List Char → List JVal
  | [], _ => []
  | chunk :: rest, buf =>
    if chunk = [] then []
    else
      let r := drainLines (buf ++ chunk).length (buf ++ chunk)
      r.1 ++ iterMessages rest r.2

inductive RecvResult where
  | msg (v : JVal)
  | disconnected
  | timeout

/-- `server.py::recv_json` at chunk granularity: each poll receives the
next chunk (an empty chunk is a closed peer, reported as DISCONNECTED),
appends it to the buffer and retries `raw_decode` on the whole buffer,
returning only when the decode succeeds with a blank remainder; on a
decode failure it keeps the buffer and keeps polling, and `None`
(modelled `timeout`) is returned when the timeout runs out. -/
def recvJsonServer : Nat → List (List Char) → List Char → RecvResult
  | 0, _, _ => RecvResult.timeout
  | _ + 1, [], _ => RecvResult.timeout
  | polls + 1, ch :: rest, buf =>
    if ch = [] then RecvResult.disconnected
    else
      let buf2 := buf ++ ch
      match rawDecode buf2 with
      | some (v, tail) =>
        if pyStrip tail = [] then RecvResult.msg v
        else recvJsonServer polls rest buf2
      | none => recvJsonServer polls rest buf2

lemma takeWhile_append_no_nl {bad : List Char} (rest : List Char) (h : '\n' ∉ bad) :
    (bad ++ '\n' :: rest).takeWhile (fun c => c ≠ '\n') = bad
    ∧ (bad ++ '\n' :: rest).dropWhile (fun c => c ≠ '\n') = '\n' :: rest := by
  induction bad with
  | nil => simp
  | cons c cs ih =>
    have hc : c ≠ '\n' := fun hh => h (hh ▸ List.mem_cons_self c cs)
    have hcs : '\n' ∉ cs := fun hh => h (List.mem_cons_of_mem c hh)
    obtain ⟨h1, h2⟩ := ih hcs
    simp only [ne_eq, decide_not] at h1 h2
    constructor
    · simp [hc, h1]
    · simp [hc, h2]

lemma splitFirstNL_eq {bad : List Char} (rest : List Char) (h : '\n' ∉ bad) :
    splitFirstNL (bad ++ '\n' :: rest) = some (bad, rest) := by
  unfold splitFirstNL
  obtain ⟨h1, h2⟩ := takeWhile_append_no_nl rest h
  rw [h2, h1]

/-- The client's line drain silently discards a line that fails to decode
as JSON and keeps going with the bytes after its newline. -/
lemma drainLines_skip (fuel : Nat) (bad rest : List Char)
    (hnl : '\n' ∉ bad) (hbad : jsonLoads (pyStrip bad) = none) :
    drainLines (fuel + 1) (bad ++ '\n' :: rest) = drainLines fuel rest := by
  conv_lhs => rw [drainLines]
  rw [splitFirstNL_eq rest hnl]
  by_cases h0 : pyStrip bad = []
  · simp [h0]
  · simp [h0, hbad]

/-- The characters that can begin a JSON value. -/
def canStartJson (c : Char) : Bool :=
  c = lbrace ∨ c = '[' ∨ c = '"' ∨ c = 't' ∨ c = 'f' ∨ c = 'n' ∨ c = '-' ∨ c.isDigit

lemma parseJ_value_none {c : Char} (cs : List Char) (h : canStartJson c = false) :
    ∀ fuel, parseJ fuel PMode.value (c :: cs) = none := by
  intro fuel
  have hs : ¬ c = lbrace ∧ ¬ c = '[' ∧ ¬ c = '"' ∧ ¬ c = 't' ∧ ¬ c = 'f' ∧ ¬ c = 'n'
      ∧ ¬ c = '-' ∧ c.isDigit = false := by
    simpa [canStartJson] using h
  cases fuel with
  | zero => rfl
  | succ f =>
    have hor : ¬ (c = '-' ∨ c.isDigit = true) := by
      rintro (hh | hh)
      · exact hs.2.2.2.2.2.2.1 hh
      · rw [hs.2.2.2.2.2.2.2] at hh
        cases hh
    simp [parseJ, hs.1, hs.2.1, hs.2.2.1, hs.2.2.2.1, hs.2.2.2.2.1, hs.2.2.2.2.2.1, hor]

lemma rawDecode_cons_none {c : Char} (cs : List Char) (h : canStartJson c = false) :
    rawDecode (c :: cs) = none :=
  parseJ_value_none cs h _

/-- With a buffer whose first character cannot start a JSON value,
`recv_json` never returns a message: every retry of `raw_decode` on the
growing buffer fails, and the call times out. -/
lemma recvJsonServer_stuck {c : Char} (h : canStartJson c = false) :
    ∀ (polls : Nat) (chunks : List (List Char)) (buf : List Char),
      buf.head? = some c → [] ∉ chunks →
      recvJsonServer polls chunks buf = RecvResult.timeout := by
  intro polls
  induction polls with
  | zero => intro chunks buf _ _; rfl
  | succ p ih =>
    intro chunks buf hh hnc
    cases chunks with
    | nil => rfl
    | cons ch rest =>
      have hch : ¬ ch = [] := fun hce => hnc (hce ▸ List.mem_cons_self ch rest)
      obtain ⟨b2, rfl⟩ : ∃ b2, buf = c :: b2 := by
        cases buf with
        | nil => cases hh
        | cons x xs =>
          simp only [List.head?_cons, Option.some.injEq] at hh
          exact ⟨xs, by rw [hh]⟩
      conv_lhs => rw [recvJsonServer]
      simp only [if_neg hch, List.cons_append]
      rw [rawDecode_cons_none (b2 ++ ch) h]
      exact ih rest (c :: (b2 ++ ch)) rfl (fun hm => hnc (List.mem_cons_of_mem _ hm))

/-- C4, counterexample: on the byte stream
`garbage\n` + `\x7b"message_type": "HI"\x7d\n` the server's `recv_json`
never returns a message (it times out with the buffer intact), even
though the bytes after the newline form a valid JSON message — the same
stream through the client's `iter_messages` yields exactly that message.
So the server's message decoding does not discard the malformed line and
does not decode the bytes after the next newline. -/
theorem server_decode_no_resync_cex :
    recvJsonServer 50 ["garbage\n\x7b\"message_type\": \"HI\"\x7d\n".toList] []
      = RecvResult.timeout
    ∧ jsonLoads "\x7b\"message_type\": \"HI\"\x7d".toList
        = some (JVal.jobj [("message_type".toList, JVal.jstr "HI".toList)])
    ∧ iterMessages ["garbage\n\x7b\"message_type\": \"HI\"\x7d\n".toList, "end".toList] []
        = [JVal.jobj [("message_type".toList, JVal.jstr "HI".toList)]] :=
  ⟨rfl, rfl, rfl⟩

/-- C4 (amended): a line that fails to parse as JSON is discarded
silently and without desynchronization by the client's `iter_messages` —
the bytes after the next newline are decoded normally; the server's
`recv_json` never raises on malformed input either, but it does not
resynchronize: with a buffered line whose first character cannot start a
JSON value, every retry of `raw_decode` on the whole buffer fails and the
call returns `None` at its timeout, leaving any valid lines after the
newline undecoded. -/
theorem malformed_line_codec (fuel polls : Nat) (bad rest tail : List Char)
    (chunks : List (List Char)) (c : Char)
    (hnl : '\n' ∉ bad) (hbad : jsonLoads (pyStrip bad) = none)
    (hc : canStartJson c = false) (hnc : [] ∉ chunks) :
    drainLines (fuel + 1) (bad ++ '\n' :: rest) = drainLines fuel rest
    ∧ recvJsonServer (polls + 1) ((c :: tail) :: chunks) [] = RecvResult.timeout := by
  refine ⟨drainLines_skip fuel bad rest hnl hbad, ?_⟩
  conv_lhs => rw [recvJsonServer]
  have hch : ¬ (c :: tail) = ([] : List Char) := by simp
  simp only [if_neg hch, List.nil_append]
  rw [rawDecode_cons_none tail hc]
  exact recvJsonServer_stuck hc polls chunks (c :: tail) rfl hnc

/-- C4 witness: the malformed line `garbage` followed by a valid HI
message line. -/
theorem malformed_line_codec_witness :
    drainLines 31 ("garbage".toList ++ '\n' :: "\x7b\"message_type\": \"HI\"\x7d\n".toList)
      = drainLines 30 "\x7b\"message_type\": \"HI\"\x7d\n".toList
    ∧ recvJsonServer 11
        (('g' :: "arbage\n".toList) :: ["\x7b\"message_type\": \"HI\"\x7d\n".toList]) []
        = RecvResult.timeout :=
  malformed_line_codec 30 10 "garbage".toList "\x7b\"message_type\": \"HI\"\x7d\n".toList
    "arbage\n".toList ["\x7b\"message_type\": \"HI\"\x7d\n".toList] 'g'
    (by decide) (by rfl) (by rfl) (by decide)

end TriviaNet

/-! ### Concrete evaluation checks

Sanity examples showing the embedding computes: the evaluator's observed
outputs on small payloads, and the two codecs' behaviour on a stream with
a malformed first line. -/

section checks
open TriviaNet
example : solve_math "6 / 0" = some "0" := by decide
example : solve_math "2 + 3 * 4" = some "14" := by decide
example : solve_math "10 - 2 - 3" = some "5" := by decide
example : solve_math "1 + 100 / 7" = some "15" := by decide
example : solve_math "3 - 10 / 4" = some "1" := by decide
example : solve_math "" = some "" := by decide
example : solve_math "2 - 5 * 2" = some "−8" := by decide
example : TriviaNet.jsonLoads "\x7b\"message_type\": \"HI\"\x7d".toList
    = some (TriviaNet.JVal.jobj [("message_type".toList, TriviaNet.JVal.jstr "HI".toList)]) := by
  rfl
example : TriviaNet.jsonLoads "garbage".toList = none := by rfl
example : TriviaNet.jsonLoads "\x7b\"a\": [1, -2, true, null], \"b\": \"x\"\x7d".toList
    = some (TriviaNet.JVal.jobj
        [("a".toList, TriviaNet.JVal.jarr
            [TriviaNet.JVal.jnum 1, TriviaNet.JVal.jnum (-2),
             TriviaNet.JVal.jbool true, TriviaNet.JVal.jnull]),
         ("b".toList, TriviaNet.JVal.jstr "x".toList)]) := by
  rfl
example : TriviaNet.recvJsonServer 50
    ["garbage\n\x7b\"message_type\": \"HI\"\x7d\n".toList] []
    = TriviaNet.RecvResult.timeout := by rfl
example : TriviaNet.iterMessages
    ["garbage\n\x7b\"message_type\": \"HI\"\x7d\n".toList, "end".toList] []
    = [TriviaNet.JVal.jobj [("message_type".toList, TriviaNet.JVal.jstr "HI".toList)]] := by
  rfl
end checks
